import Mathlib

/-!
RTP header decoding (`rtp/rtp.go`).

A shallow embedding of the receive path of the `rtp` package: the packet value
(`RtpPacket`), the big-endian span reader `toUint`, the per-chunk task
`handleRtp` together with the placeholder `handleRtcp`, and the read loops
`HandleRtpConn` and `HandleRtcpConn` over a finite script of reads.

Modelling conventions.

* A Go `byte` is a `Byte = Fin 256`; a `[]byte` is a `List Byte`.  The only
  caller of `handleRtp` passes `cpy := make([]byte, n)`, so capacity equals
  length and every slice expression `buf[i:j]` is checked against the length.
* Go `uint` is taken at 64 bits; the one place where it can wrap (the shift in
  `toUint`) carries an explicit `% 2 ^ 64`.
* A run-time panic is an `Except.error`: `Failure.unsupportedVersion` for
  `panic("Unsupported version")`, `Failure.outOfRange` for the run-time errors
  "index out of range" and "slice bounds out of range".
* A buffered channel is the list of values it currently holds, oldest first.
* Concurrency is a schedule: a list of atomic units of work (dispatch tasks and
  consumer receives) in the order in which they take effect, carried out on the
  channels with the goroutines parked on them (`Sys`).  A panic is recovered
  nowhere in the package, so it ends the schedule.
* `handleRtpLog` is `handleRtpPacket` with the index and slice expressions it
  evaluates recorded, the one that panics included.
* Bit positions are those the code reads: in byte 0 the version is `buf[0] & 0x03`,
  the padding and extension flags are the masks `1 << 2` and `1 << 3`, the CSRC
  count is `buf[0] >> 4`; in byte 1 the marker is `buf[1] & 1` and the payload
  type is `buf[1] >> 1`.
-/

namespace Rtp

/-- A Go `byte`. -/
abbrev Byte := Fin 256

/-- Protocol version accepted by the decoder (`RTPVERSION`). -/
def RTPVERSION : Nat := 2

/-- Mask of the padding flag in byte 0 (`1 << 2`). -/
def hasRtpPadding : Nat := 1 <<< 2

/-- Mask of the extension flag in byte 0 (`1 << 3`). -/
def hasRtpExt : Nat := 1 <<< 3

/-- Width of the Go `uint` type in bits. -/
def uintBits : Nat := 64

/-- The decoded packet (`type RtpPacket struct`). -/
structure RtpPacket where
  Version : Nat
  Padding : Bool
  Ext : Bool
  Marker : Bool
  PayloadType : Nat
  SequenceNumber : Nat
  Timestamp : Nat
  SyncSource : Nat
  CSRC : List Nat
  ExtHeader : Nat
  ExtData : List Byte
  Payload : List Byte
  deriving DecidableEq, Repr

/-- The two ways in which `handleRtp` can panic. -/
inductive Failure where
  | unsupportedVersion
  | outOfRange
  deriving DecidableEq, Repr

/-- The producing ends of the two channels of a `Session`, each as the list of
values buffered in it (oldest first). -/
structure Session where
  rtpChan : List RtpPacket
  rtcpChan : List (List Byte)
  deriving DecidableEq, Repr

/-- Capacity of both channels (`make(chan ..., 10)`). -/
def chanCap : Nat := 10

/-- The channels of a freshly created session (`New`): both empty. -/
def New : Session := { rtpChan := [], rtcpChan := [] }

/-- How a per-chunk task ends: it returns leaving the session in state `s`, it
is parked on a send of `p` to a full channel, or it panics. -/
inductive Outcome where
  | done (s : Session)
  | blocked (p : RtpPacket)
  | panicked (e : Failure)
  deriving DecidableEq, Repr

/-- Index expression `buf[i]`: panics when `i` is not below the length. -/
def index (buf : List Byte) (i : Nat) : Except Failure Byte :=
  match buf.get? i with
  | some b => .ok b
  | none => .error .outOfRange

/-- Slice expression `buf[i:j]`: panics unless `i ≤ j ≤ len(buf)`. -/
def slice (buf : List Byte) (i j : Nat) : Except Failure (List Byte) :=
  if i ≤ j ∧ j ≤ buf.length then .ok ((buf.drop i).take (j - i))
  else .error .outOfRange

/-- Slice expression `buf[i:]`: panics unless `i ≤ len(buf)`. -/
def sliceFrom (buf : List Byte) (i : Nat) : Except Failure (List Byte) :=
  if i ≤ buf.length then .ok (buf.drop i) else .error .outOfRange

/-- One iteration of the loop of `toUint`:
`ret |= uint(b) << (8 * uint(len(arr)-i-1))`. -/
def toUintStep (len : Nat) (ret : Nat) (ib : Nat × Byte) : Nat :=
  ret ||| (ib.2.val <<< (8 * (len - ib.1 - 1))) % 2 ^ uintBits

/-- The function `toUint`: fold the bytes of `arr`, most significant first, into
one unsigned integer. -/
def toUint (arr : List Byte) : Nat :=
  arr.enum.foldl (toUintStep arr.length) 0

/-- The loop `for j := range packet.CSRC { packet.CSRC[j] = toUint(buf[i : i+4]); i += 4 }`,
over the remaining indices `js`, threading the list `csrc` and the offset `i`. -/
def csrcLoop (buf : List Byte) : List Nat → List Nat → Nat → Except Failure (List Nat × Nat)
  | [], csrc, i => .ok (csrc, i)
  | j :: js, csrc, i =>
    match slice buf i (i + 4) with
    | .error e => .error e
    | .ok s => csrcLoop buf js (csrc.set j (toUint s)) (i + 4)

/-- The extension block of `handleRtp` (the body of `if packet.Ext`), starting at
offset `i`: returns `ExtHeader`, `ExtData` and the offset after the block. -/
def extBlock (buf : List Byte) (i : Nat) : Except Failure (Nat × List Byte × Nat) :=
  match slice buf i (i + 2) with
  | .error e => .error e
  | .ok h =>
    match slice buf (i + 2) (i + 4) with
    | .error e => .error e
    | .ok l =>
      let length := toUint l
      if length > 0 then
        match slice buf (i + 4) (i + 4 + length * 4) with
        | .error e => .error e
        | .ok d => .ok (toUint h, d, i + 4 + length * 4)
      else .ok (toUint h, [], i + 4)

/-- The packet that `handleRtp` builds from `buf`, up to (not including) the
send on the channel; an error is the panic that ends the task. -/
def handleRtpPacket (buf : List Byte) : Except Failure RtpPacket := do
  let b0 ← index buf 0
  let b1 ← index buf 1
  let seq ← slice buf 2 4
  let ts ← slice buf 4 8
  let ssrc ← slice buf 8 12
  let packet : RtpPacket :=
    { Version := b0.val &&& 0x03
      Padding := b0.val &&& hasRtpPadding != 0
      Ext := b0.val &&& hasRtpExt != 0
      CSRC := List.replicate (b0.val >>> 4) 0
      Marker := b1.val &&& 1 != 0
      PayloadType := b1.val >>> 1
      SequenceNumber := toUint seq
      Timestamp := toUint ts
      SyncSource := toUint ssrc
      ExtHeader := 0
      ExtData := []
      Payload := [] }
  if packet.Version != RTPVERSION then
    throw Failure.unsupportedVersion
  let (csrc, i) ← csrcLoop buf (List.range packet.CSRC.length) packet.CSRC 12
  let packet := { packet with CSRC := csrc }
  let (extHeader, extData, i) ←
    if packet.Ext then extBlock buf i else pure (packet.ExtHeader, packet.ExtData, i)
  let packet := { packet with ExtHeader := extHeader, ExtData := extData }
  let payload ← sliceFrom buf i
  pure { packet with Payload := payload }

/-- The task `handleRtp`: build the packet, then `s.rtpChan <- packet`. -/
def handleRtp (s : Session) (buf : List Byte) : Outcome :=
  match handleRtpPacket buf with
  | .error e => .panicked e
  | .ok packet =>
    if s.rtpChan.length < chanCap then .done { s with rtpChan := s.rtpChan ++ [packet] }
    else .blocked packet

/-- The task `handleRtcp`: its body is empty. -/
def handleRtcp (s : Session) (_buf : List Byte) : Outcome :=
  .done s

deriving instance DecidableEq for Except

/-! ## Specification vocabulary -/

/-- Value of the byte at offset `k` of `buf` (zero past the end). -/
def byteAt (buf : List Byte) (k : Nat) : Nat := (buf.getD k 0).val

/-- Unsigned big-endian value of the two bytes at offsets `off`, `off + 1`. -/
def be16 (buf : List Byte) (off : Nat) : Nat :=
  byteAt buf off * 2 ^ 8 + byteAt buf (off + 1)

/-- Unsigned big-endian value of the four bytes at offsets `off .. off + 3`. -/
def be32 (buf : List Byte) (off : Nat) : Nat :=
  byteAt buf off * 2 ^ 24 + byteAt buf (off + 1) * 2 ^ 16 + byteAt buf (off + 2) * 2 ^ 8
    + byteAt buf (off + 3)

/-- Closed form of `handleRtpPacket`, proved equal to it below. -/
def decodeClosed (buf : List Byte) : Except Failure RtpPacket :=
  let c := byteAt buf 0 >>> 4
  let l := be16 buf (12 + 4 * c + 2)
  let fixed : RtpPacket :=
    { Version := byteAt buf 0 &&& 0x03
      Padding := byteAt buf 0 &&& hasRtpPadding != 0
      Ext := byteAt buf 0 &&& hasRtpExt != 0
      Marker := byteAt buf 1 &&& 1 != 0
      PayloadType := byteAt buf 1 >>> 1
      SequenceNumber := be16 buf 2
      Timestamp := be32 buf 4
      SyncSource := be32 buf 8
      CSRC := (List.range c).map (fun j => be32 buf (12 + 4 * j))
      ExtHeader := 0
      ExtData := []
      Payload := buf.drop (12 + 4 * c) }
  if buf.length < 12 then .error .outOfRange
  else if byteAt buf 0 &&& 0x03 ≠ RTPVERSION then .error .unsupportedVersion
  else if buf.length < 12 + 4 * c then .error .outOfRange
  else if fixed.Ext = false then .ok fixed
  else if buf.length < 12 + 4 * c + 4 then .error .outOfRange
  else if buf.length < 12 + 4 * c + 4 + 4 * l then .error .outOfRange
  else .ok { fixed with
    ExtHeader := be16 buf (12 + 4 * c)
    ExtData := (buf.drop (12 + 4 * c + 4)).take (4 * l)
    Payload := buf.drop (12 + 4 * c + 4 + 4 * l) }

/-! ## Sample inputs -/

/-- The buffer of the first concrete scenario of the specification. -/
def exampleBuf : List Byte :=
  [0x80, 0x00, 0x00, 0x01, 0x00, 0x00, 0x00, 0x00, 0x00, 0x00, 0x00, 0x00]

/-- A 26-byte buffer: version 2, extension flag set, one CSRC entry, marker
set, payload type 1, a one-word extension and a two-byte payload. -/
def sampleBuf : List Byte :=
  [0x1A, 0x03, 0x00, 0x01, 0, 0, 0, 0, 0, 0, 0, 0, 1, 2, 3, 4, 0, 9, 0, 1, 5, 6, 7, 8, 9, 9]

/-- The packet decoded from `sampleBuf`. -/
def samplePacket : RtpPacket :=
  { Version := 2, Padding := false, Ext := true, Marker := true, PayloadType := 1,
    SequenceNumber := 1, Timestamp := 0, SyncSource := 0, CSRC := [16909060],
    ExtHeader := 9, ExtData := [5, 6, 7, 8], Payload := [9, 9] }

/-- A 22-byte buffer: version 2, no extension, two CSRC entries and a two-byte
payload. -/
def sampleBufCsrc : List Byte :=
  [0x22, 0xFE, 0x12, 0x34, 1, 2, 3, 4, 5, 6, 7, 8, 0, 0, 0, 5, 0, 0, 1, 0, 7, 7]

/-- The packet decoded from `sampleBufCsrc`. -/
def samplePacketCsrc : RtpPacket :=
  { Version := 2, Padding := false, Ext := false, Marker := false, PayloadType := 127,
    SequenceNumber := 0x1234, Timestamp := 0x01020304, SyncSource := 0x05060708,
    CSRC := [5, 256], ExtHeader := 0, ExtData := [], Payload := [7, 7] }

/-- A 12-byte buffer whose version bits are 1. -/
def badVersionBuf : List Byte :=
  [0x01, 0x00, 0x00, 0x01, 0x00, 0x00, 0x00, 0x00, 0x00, 0x00, 0x00, 0x00]

/-- An 11-byte buffer with version bits 2. -/
def shortBuf : List Byte :=
  [0x02, 0x00, 0x00, 0x01, 0x00, 0x00, 0x00, 0x00, 0x00, 0x00, 0x00]

/-- A 25-byte buffer: `sampleBuf` cut one byte short of its declared extension
data. -/
def overrunBuf : List Byte :=
  [0x1A, 0x03, 0x00, 0x01, 0, 0, 0, 0, 0, 0, 0, 0, 1, 2, 3, 4, 0, 9, 0, 2, 5, 6, 7, 8, 9]

/-! ## The wire-format encoder of the round-trip property -/

/-- The byte with value `n % 256`. -/
def byteOf (n : Nat) : Byte := ⟨n % 256, Nat.mod_lt n (by decide)⟩

/-- Modelled from the spec: a 16-bit big-endian field of the wire format of §6
(the repository is receive-only and has no encoder). -/
def putBe16 (v : Nat) : List Byte := [byteOf (v / 2 ^ 8), byteOf v]

/-- Modelled from the spec: a 32-bit big-endian field of the wire format of §6
(the repository is receive-only and has no encoder). -/
def putBe32 (v : Nat) : List Byte :=
  [byteOf (v / 2 ^ 24), byteOf (v / 2 ^ 16), byteOf (v / 2 ^ 8), byteOf v]

/-- Modelled from the spec: the CSRC identifiers of the wire format of §6, 32
bits each, in order (no encoder exists in the repository). -/
def putCsrc : List Nat → List Byte
  | [] => []
  | v :: vs => putBe32 v ++ putCsrc vs

/-- Modelled from the spec: the 12-byte fixed header of the wire format of §6,
with the bit positions of §4.1 (version in the low 2 bits of byte 0, padding
bit 2, extension bit 3, CSRC count in the high 4 bits; marker bit 0 of byte 1,
payload type the other 7 bits); no encoder exists in the repository. -/
def fixedHeader (p : RtpPacket) : List Byte :=
  [byteOf (p.Version % 4 + (if p.Padding then 4 else 0) + (if p.Ext then 8 else 0)
      + 16 * (p.CSRC.length % 16)),
    byteOf ((if p.Marker then 1 else 0) + 2 * (p.PayloadType % 128))]
    ++ putBe16 p.SequenceNumber ++ putBe32 p.Timestamp ++ putBe32 p.SyncSource

/-- Modelled from the spec: the extension block of the wire format of §6, present
when the extension flag is set: identifier, length in 32-bit words, data (no
encoder exists in the repository). -/
def extBytes (p : RtpPacket) : List Byte :=
  if p.Ext then putBe16 p.ExtHeader ++ (putBe16 (p.ExtData.length / 4) ++ p.ExtData) else []

/-- Modelled from the spec: the encoder of the round-trip property, which the
repository (receive-only) does not contain: the wire format of §6, that is
fixed header, CSRC identifiers, extension block if the flag is set, payload. -/
def encode (p : RtpPacket) : List Byte :=
  fixedHeader p ++ (putCsrc p.CSRC ++ (extBytes p ++ p.Payload))

/-- The invariants that the round-trip property lists for a packet. -/
def ListedInvariants (p : RtpPacket) : Prop :=
  p.Version = 2 ∧ p.CSRC.length ≤ 15 ∧ (∀ v ∈ p.CSRC, v < 2 ^ 32)
    ∧ p.SequenceNumber < 2 ^ 16 ∧ p.Timestamp < 2 ^ 32 ∧ p.SyncSource < 2 ^ 32
    ∧ p.PayloadType < 128 ∧ 4 ∣ p.ExtData.length ∧ (p.Ext = false → p.ExtData = [])

instance (p : RtpPacket) : Decidable (ListedInvariants p) := by
  unfold ListedInvariants
  infer_instance

/-- A packet with the extension flag clear and a non-zero `ExtHeader`. -/
def strayHeaderPacket : RtpPacket :=
  { Version := 2, Padding := false, Ext := false, Marker := false, PayloadType := 0,
    SequenceNumber := 1, Timestamp := 0, SyncSource := 0, CSRC := [],
    ExtHeader := 7, ExtData := [], Payload := [] }

/-! ## The read loops and the schedule of tasks -/

/-- A Go `error` value, by its message. -/
abbrev Error := String

/-- What one call `conn.Read(buf)` returns: the `n` bytes it stored at the front
of `buf` (so `n` is the length of `bytes`) and the error `err`, if any. -/
structure ReadResult where
  bytes : List Byte
  err : Option Error
  deriving DecidableEq, Repr

/-- Where a read loop stands after a finite script of reads: waiting in the next
`conn.Read`, or ended by `panic(err)`.  The loop is `for { ... }` without `break`
or `return`, and the package contains no `close` and no `recover`. -/
inductive LoopEnd where
  | reading
  | panicked (err : Error)
  deriving DecidableEq, Repr

/-- A unit of work on the channels of a session: a task started by a read loop
(`go s.handleRtp(cpy)`, `go s.handleRtcp(cpy)`), or a consumer receiving from
`RtpChan`, `RtcpChan`. -/
inductive Action where
  | rtp (cpy : List Byte)
  | rtcp (cpy : List Byte)
  | recvRtp
  | recvRtcp
  deriving DecidableEq, Repr

/-- The loop `HandleRtpConn` over the script of what `conn.Read` returns: on an
error `panic(err)`; otherwise `cpy` is the `n` bytes read and `go s.handleRtp(cpy)`
is started.  Returns the tasks started, in order, and where the loop stands. -/
def HandleRtpConn : List ReadResult → List Action × LoopEnd
  | [] => ([], .reading)
  | r :: rest =>
    match r.err with
    | some err => ([], .panicked err)
    | none => (Action.rtp r.bytes :: (HandleRtpConn rest).1, (HandleRtpConn rest).2)

/-- The loop `HandleRtcpConn`: as `HandleRtpConn`, starting `go s.handleRtcp(cpy)`. -/
def HandleRtcpConn : List ReadResult → List Action × LoopEnd
  | [] => ([], .reading)
  | r :: rest =>
    match r.err with
    | some err => ([], .panicked err)
    | none => (Action.rtcp r.bytes :: (HandleRtcpConn rest).1, (HandleRtcpConn rest).2)

/-- The channels of a session together with the goroutines parked on them: the
packets of the tasks parked in `s.rtpChan <- packet` (oldest first), the number
of consumers parked in a receive from `RtpChan` and from `RtcpChan`, the packets
consumers have received so far (oldest first), and the panic that ended the
program, if any. -/
structure Sys where
  chans : Session
  sendq : List RtpPacket
  recvq : Nat
  rtcpRecvq : Nat
  received : List RtpPacket
  panic : Option Failure
  deriving DecidableEq, Repr

/-- The state in which the channels are those of `s` and nothing is parked. -/
def Sys.start (s : Session) : Sys :=
  { chans := s, sendq := [], recvq := 0, rtcpRecvq := 0, received := [], panic := none }

/-- One unit of work as an atomic step, with the semantics of a Go buffered
channel.  A send to a channel with room completes, and a consumer parked on the
(then empty) channel takes the value at once; a send to a full channel parks the
task with its packet.  A receive takes the oldest buffered value, and the oldest
parked send then completes into the freed slot; a receive on an empty channel
parks the consumer.  A panic is recorded. -/
def step (y : Sys) : Action → Sys
  | .rtp cpy =>
    match handleRtp y.chans cpy with
    | .panicked e => { y with panic := some e }
    | .blocked p => { y with sendq := y.sendq ++ [p] }
    | .done s' =>
      match y.recvq, s'.rtpChan with
      | n + 1, p :: rest =>
        { y with chans := { s' with rtpChan := rest }, recvq := n,
                 received := y.received ++ [p] }
      | _, _ => { y with chans := s' }
  | .rtcp cpy =>
    match handleRtcp y.chans cpy with
    | .panicked e => { y with panic := some e }
    | .blocked _ => y
    | .done s' => { y with chans := s' }
  | .recvRtp =>
    match y.chans.rtpChan, y.sendq with
    | [], _ => { y with recvq := y.recvq + 1 }
    | p :: rest, [] =>
      { y with chans := { y.chans with rtpChan := rest }, received := y.received ++ [p] }
    | p :: rest, q :: qs =>
      { y with chans := { y.chans with rtpChan := rest ++ [q] }, sendq := qs,
               received := y.received ++ [p] }
  | .recvRtcp =>
    match y.chans.rtcpChan with
    | [] => { y with rtcpRecvq := y.rtcpRecvq + 1 }
    | _ :: rest => { y with chans := { y.chans with rtcpChan := rest } }

/-- A schedule carried out from `y`: the units of work in the order in which they
take effect.  A panic is not recovered anywhere, so it ends the program: the
state stays as it is and the rest of the schedule is not carried out. -/
def exec (y : Sys) : List Action → Sys
  | [] => y
  | a :: rest =>
    match y.panic with
    | some _ => y
    | none => exec (step y a) rest

/-- A schedule carried out from the channels `s` with nothing parked: the
channels at the end and the panic that ended the program, if any. -/
def run (s : Session) (as : List Action) : Session × Option Failure :=
  ((exec (Sys.start s) as).chans, (exec (Sys.start s) as).panic)

/-- The packets that the tasks of a schedule send, in the order of the schedule,
up to the first task that panics. -/
def packetsOf : List Action → List RtpPacket
  | [] => []
  | .rtp cpy :: rest =>
    match handleRtpPacket cpy with
    | .ok p => p :: packetsOf rest
    | .error _ => []
  | .rtcp _ :: rest => packetsOf rest
  | .recvRtp :: rest => packetsOf rest
  | .recvRtcp :: rest => packetsOf rest

/-- What holds of every state reached from `Sys.start New`: no channel holds more
than its capacity, a task is parked only while the media channel is full, and a
consumer is parked only while it is empty. -/
def Sys.Inv (y : Sys) : Prop :=
  y.chans.rtpChan.length ≤ chanCap ∧ y.chans.rtcpChan.length ≤ chanCap
    ∧ (y.sendq ≠ [] → y.chans.rtpChan.length = chanCap)
    ∧ (0 < y.recvq → y.chans.rtpChan = [])

/-! ## The accesses the decoder evaluates -/

/-- An index or slice expression evaluated on the buffer: `buf[i]`, `buf[i:j]`,
`buf[i:]`. -/
inductive Access where
  | index (i : Nat)
  | slice (i j : Nat)
  | sliceFrom (i : Nat)
  deriving DecidableEq, Repr

/-- Whether the access lies within a buffer of length `n`, that is, whether the
Go run time lets it through. -/
def Access.inRange (n : Nat) : Access → Bool
  | .index i => decide (i < n)
  | .slice i j => decide (i ≤ j ∧ j ≤ n)
  | .sliceFrom i => decide (i ≤ n)

/-- The result of a piece of the decoder together with the accesses it evaluated,
in order, the one that panicked included. -/
abbrev Logged (α : Type) := List Access × Except Failure α

/-- Sequencing: the second piece runs, after the first, only if that succeeded. -/
def Logged.andThen {α β : Type} (r : Logged α) (f : α → Logged β) : Logged β :=
  match r.2 with
  | .error e => (r.1, .error e)
  | .ok a => (r.1 ++ (f a).1, (f a).2)

/-- The expression `buf[i]`, logged. -/
def logIndex (buf : List Byte) (i : Nat) : Logged Byte :=
  ([.index i], index buf i)

/-- The expression `buf[i:j]`, logged. -/
def logSlice (buf : List Byte) (i j : Nat) : Logged (List Byte) :=
  ([.slice i j], slice buf i j)

/-- The expression `buf[i:]`, logged. -/
def logSliceFrom (buf : List Byte) (i : Nat) : Logged (List Byte) :=
  ([.sliceFrom i], sliceFrom buf i)

/-- The loop `csrcLoop` with its accesses logged. -/
def csrcLoopLog (buf : List Byte) : List Nat → List Nat → Nat → Logged (List Nat × Nat)
  | [], csrc, i => ([], .ok (csrc, i))
  | j :: js, csrc, i =>
    (logSlice buf i (i + 4)).andThen fun s =>
      csrcLoopLog buf js (csrc.set j (toUint s)) (i + 4)

/-- The extension block `extBlock` with its accesses logged. -/
def extBlockLog (buf : List Byte) (i : Nat) : Logged (Nat × List Byte × Nat) :=
  (logSlice buf i (i + 2)).andThen fun h =>
    (logSlice buf (i + 2) (i + 4)).andThen fun l =>
      if toUint l > 0 then
        (logSlice buf (i + 4) (i + 4 + toUint l * 4)).andThen fun d =>
          ([], .ok (toUint h, d, i + 4 + toUint l * 4))
      else ([], .ok (toUint h, [], i + 4))

/-- The body of `handleRtp` up to the send, as `handleRtpPacket`, with the index
and slice expressions it evaluates on `buf` logged.  The operands of the
composite literal are taken in lexical order (Go fixes no order between them
and the calls of `toUint`; whatever the order, an operand out of range raises
the same run-time panic), and `buf[0]` and `buf[1]`, which the literal repeats,
are logged once; the loop and the extension block are statements, logged in
the order in which they run. -/
def handleRtpLog (buf : List Byte) : Logged RtpPacket :=
  (logIndex buf 0).andThen fun b0 =>
  (logIndex buf 1).andThen fun b1 =>
  (logSlice buf 2 4).andThen fun seq =>
  (logSlice buf 4 8).andThen fun ts =>
  (logSlice buf 8 12).andThen fun ssrc =>
    if (b0.val &&& 0x03 != RTPVERSION) = true then ([], .error .unsupportedVersion)
    else
      (csrcLoopLog buf (List.range (List.replicate (b0.val >>> 4) 0).length)
          (List.replicate (b0.val >>> 4) 0) 12).andThen fun ci =>
      (if (b0.val &&& hasRtpExt != 0) = true then extBlockLog buf ci.2
        else ([], .ok (0, [], ci.2))).andThen fun ext =>
      (logSliceFrom buf ext.2.2).andThen fun payload =>
        ([], .ok
          { Version := b0.val &&& 0x03
            Padding := b0.val &&& hasRtpPadding != 0
            Ext := b0.val &&& hasRtpExt != 0
            CSRC := ci.1
            Marker := b1.val &&& 1 != 0
            PayloadType := b1.val >>> 1
            SequenceNumber := toUint seq
            Timestamp := toUint ts
            SyncSource := toUint ssrc
            ExtHeader := ext.1
            ExtData := ext.2.1
            Payload := payload })

/-- The log of a piece of the decoder on a buffer of length `n` is sound: if the
piece ended in the out-of-range panic, the last access logged is out of range
and every earlier one is in range; otherwise every access logged is in range. -/
def Logged.Sound {α : Type} (n : Nat) (r : Logged α) : Prop :=
  (r.2 = .error .outOfRange →
      ∃ pre a, r.1 = pre ++ [a] ∧ (∀ x ∈ pre, x.inRange n = true) ∧ a.inRange n = false)
    ∧ (r.2 ≠ .error .outOfRange → ∀ x ∈ r.1, x.inRange n = true)

/-! ## Further sample inputs -/

/-- A 16-byte buffer: version 2, no extension, no CSRC entry and the four
payload bytes `FF FF FF FF`. -/
def plainPayloadBuf : List Byte :=
  [0x02, 0x00, 0x00, 0x01, 0x00, 0x00, 0x00, 0x00, 0x00, 0x00, 0x00, 0x00,
    0xFF, 0xFF, 0xFF, 0xFF]

/-- The packet decoded from `plainPayloadBuf`. -/
def plainPayloadPacket : RtpPacket :=
  { Version := 2, Padding := false, Ext := false, Marker := false, PayloadType := 0,
    SequenceNumber := 1, Timestamp := 0, SyncSource := 0, CSRC := [],
    ExtHeader := 0, ExtData := [], Payload := [0xFF, 0xFF, 0xFF, 0xFF] }

/-- The buffer of the extension scenario: byte 0 is `b0`, then the fixed header
`00 00 01 | 00 00 00 00 | 00 00 00 00`, extension identifier `00 01`, extension
length `00 01`, and the four bytes of extension data. -/
def extScenarioBuf (b0 d0 d1 d2 d3 : Byte) : List Byte :=
  [b0, 0x00, 0x00, 0x01, 0x00, 0x00, 0x00, 0x00, 0x00, 0x00, 0x00, 0x00,
    0x00, 0x01, 0x00, 0x01, d0, d1, d2, d3]

/-- The packet of the extension scenario: version 2, `Ext` set, sequence number
1, `ExtHeader = 1`, the four bytes as `ExtData`, nothing else. -/
def extScenarioPacket (d0 d1 d2 d3 : Byte) : RtpPacket :=
  { Version := 2, Padding := false, Ext := true, Marker := false, PayloadType := 0,
    SequenceNumber := 1, Timestamp := 0, SyncSource := 0, CSRC := [],
    ExtHeader := 1, ExtData := [d0, d1, d2, d3], Payload := [] }

/-- A full media channel: ten copies of `samplePacket`. -/
def fullSession : Session :=
  { rtpChan := List.replicate 10 samplePacket, rtcpChan := [] }

/-! ## The span reader `toUint` and the checked accesses -/

theorem or_eq_add_of_lt (x b k : Nat) (hb : b < 2 ^ k) : x * 2 ^ k ||| b = x * 2 ^ k + b := by
  rw [Nat.mul_comm]
  exact (Nat.mul_add_lt_is_or hb x).symm

theorem toUint_two (a b : Byte) : toUint [a, b] = a.val * 256 + b.val := by
  have ha := a.isLt
  have hb := b.isLt
  simp only [toUint, toUintStep, uintBits, List.enum, List.enumFrom, List.foldl, List.length]
  norm_num [Nat.shiftLeft_eq]
  rw [Nat.mod_eq_of_lt (by omega), Nat.mod_eq_of_lt (by omega)]
  exact or_eq_add_of_lt a.val b.val 8 (by omega)

theorem toUint_four (a b c d : Byte) :
    toUint [a, b, c, d] = a.val * 2 ^ 24 + b.val * 2 ^ 16 + c.val * 2 ^ 8 + d.val := by
  have ha := a.isLt
  have hb := b.isLt
  have hc := c.isLt
  have hd := d.isLt
  simp only [toUint, toUintStep, uintBits, List.enum, List.enumFrom, List.foldl, List.length]
  norm_num [Nat.shiftLeft_eq]
  rw [Nat.mod_eq_of_lt (by omega), Nat.mod_eq_of_lt (by omega), Nat.mod_eq_of_lt (by omega),
    Nat.mod_eq_of_lt (by omega)]
  have h1 : a.val * 16777216 ||| b.val * 65536 = a.val * 16777216 + b.val * 65536 :=
    or_eq_add_of_lt a.val (b.val * 65536) 24 (by omega)
  have h2 : (a.val * 256 + b.val) * 65536 ||| c.val * 256
      = (a.val * 256 + b.val) * 65536 + c.val * 256 :=
    or_eq_add_of_lt _ (c.val * 256) 16 (by omega)
  have h3 : (a.val * 65536 + b.val * 256 + c.val) * 256 ||| d.val
      = (a.val * 65536 + b.val * 256 + c.val) * 256 + d.val :=
    or_eq_add_of_lt _ d.val 8 (by omega)
  rw [h1]
  have e1 : a.val * 16777216 + b.val * 65536 = (a.val * 256 + b.val) * 65536 := by omega
  rw [e1, h2]
  have e2 : (a.val * 256 + b.val) * 65536 + c.val * 256
      = (a.val * 65536 + b.val * 256 + c.val) * 256 := by omega
  rw [e2, h3]

theorem byteAt_eq (buf : List Byte) (k : Nat) : byteAt buf k = (buf.getD k 0).val := rfl

theorem drop_eq_getD_cons (buf : List Byte) (k : Nat) (h : k < buf.length) :
    buf.drop k = buf.getD k 0 :: buf.drop (k + 1) := by
  rw [List.getD_eq_getElem buf 0 h]
  exact List.drop_eq_getElem_cons h

theorem index_ok (buf : List Byte) (k : Nat) (h : k < buf.length) :
    index buf k = .ok (buf.getD k 0) := by
  simp [index, List.getD_eq_getElem buf 0 h, List.get?_eq_getElem?, List.getElem?_eq_getElem h]

theorem index_err (buf : List Byte) (k : Nat) (h : buf.length ≤ k) :
    index buf k = .error .outOfRange := by
  simp [index, List.get?_eq_getElem?, List.getElem?_eq_none h]

theorem slice_err (buf : List Byte) (i j : Nat) (h : buf.length < j) :
    slice buf i j = .error .outOfRange := by
  simp [slice]; omega

theorem slice_ok (buf : List Byte) (i j : Nat) (hij : i ≤ j) (h : j ≤ buf.length) :
    slice buf i j = .ok ((buf.drop i).take (j - i)) := by
  simp [slice, hij, h]

theorem slice_two (buf : List Byte) (i : Nat) (h : i + 2 ≤ buf.length) :
    slice buf i (i + 2) = .ok [buf.getD i 0, buf.getD (i + 1) 0] := by
  rw [slice_ok buf i (i + 2) (by omega) h, drop_eq_getD_cons buf i (by omega),
    drop_eq_getD_cons buf (i + 1) (by omega)]
  simp

theorem slice_four (buf : List Byte) (i : Nat) (h : i + 4 ≤ buf.length) :
    slice buf i (i + 4)
      = .ok [buf.getD i 0, buf.getD (i + 1) 0, buf.getD (i + 2) 0, buf.getD (i + 3) 0] := by
  rw [slice_ok buf i (i + 4) (by omega) h, drop_eq_getD_cons buf i (by omega),
    drop_eq_getD_cons buf (i + 1) (by omega), drop_eq_getD_cons buf (i + 2) (by omega),
    drop_eq_getD_cons buf (i + 3) (by omega)]
  simp

theorem toUint_slice_two (buf : List Byte) (i : Nat) (h : i + 2 ≤ buf.length) :
    ∃ s, slice buf i (i + 2) = .ok s ∧ toUint s = be16 buf i :=
  ⟨_, slice_two buf i h, by rw [toUint_two]; rfl⟩

theorem toUint_slice_four (buf : List Byte) (i : Nat) (h : i + 4 ≤ buf.length) :
    ∃ s, slice buf i (i + 4) = .ok s ∧ toUint s = be32 buf i :=
  ⟨_, slice_four buf i h, by rw [toUint_four]; rfl⟩

theorem take_succ_set (l : List Nat) (k v : Nat) (hk : k < l.length) :
    (l.set k v).take (k + 1) = l.take k ++ [v] := by
  rw [List.set_eq_take_append_cons_drop, if_pos hk, List.take_append_eq_append_take]
  simp [List.length_take, Nat.min_eq_left (Nat.le_of_lt hk)]

theorem csrcLoop_ok (buf : List Byte) (n : Nat) :
    ∀ (k : Nat) (csrc : List Nat), k + n ≤ csrc.length → 12 + 4 * (k + n) ≤ buf.length →
      csrcLoop buf (List.range' k n) csrc (12 + 4 * k)
        = .ok (csrc.take k ++ (List.range' k n).map (fun j => be32 buf (12 + 4 * j))
            ++ csrc.drop (k + n), 12 + 4 * (k + n)) := by
  induction n with
  | zero =>
    intro k csrc _ _
    simp [csrcLoop]
  | succ n ih =>
    intro k csrc hlen hbuf
    obtain ⟨s, hs, hv⟩ := toUint_slice_four buf (12 + 4 * k) (by omega)
    rw [List.range'_succ]
    simp only [csrcLoop, hs, hv]
    have e : 12 + 4 * k + 4 = 12 + 4 * (k + 1) := by omega
    rw [e, ih (k + 1) _ (by simp; omega) (by omega)]
    have e2 : k + 1 + n = k + (n + 1) := by omega
    have hk : k < csrc.length := by omega
    rw [e2, List.drop_set_of_lt _ csrc (by omega : k < k + (n + 1)), take_succ_set csrc k _ hk]
    simp

theorem csrcLoop_err (buf : List Byte) (n : Nat) :
    ∀ (k : Nat) (csrc : List Nat), 0 < n → buf.length < 12 + 4 * (k + n) →
      csrcLoop buf (List.range' k n) csrc (12 + 4 * k) = .error .outOfRange := by
  induction n with
  | zero => intro k csrc h; omega
  | succ n ih =>
    intro k csrc _ hbuf
    rw [List.range'_succ]
    by_cases h4 : buf.length < 12 + 4 * k + 4
    · simp only [csrcLoop, slice_err buf _ _ h4]
    · obtain ⟨s, hs, _⟩ := toUint_slice_four buf (12 + 4 * k) (by omega)
      simp only [csrcLoop, hs]
      have e : 12 + 4 * k + 4 = 12 + 4 * (k + 1) := by omega
      rw [e]
      exact ih (k + 1) _ (by omega) (by omega)

theorem extBlock_short (buf : List Byte) (i : Nat) (h : buf.length < i + 4) :
    extBlock buf i = .error .outOfRange := by
  unfold extBlock
  by_cases h2 : buf.length < i + 2
  · simp only [slice_err buf _ _ h2]
  · rw [slice_two buf i (by omega)]
    simp only [slice_err buf _ _ h]

theorem extBlock_overrun (buf : List Byte) (i : Nat) (h : i + 4 ≤ buf.length)
    (hl : buf.length < i + 4 + 4 * be16 buf (i + 2)) :
    extBlock buf i = .error .outOfRange := by
  obtain ⟨s, hs, hv⟩ := toUint_slice_two buf i (by omega)
  obtain ⟨l, hl2, hlv⟩ := toUint_slice_two buf (i + 2) (by omega)
  have e : i + 2 + 2 = i + 4 := rfl
  rw [e] at hl2
  unfold extBlock
  simp only [hs, hl2, hlv, hv]
  have hpos : be16 buf (i + 2) > 0 := by omega
  simp only [hpos, if_true]
  rw [slice_err buf _ _ (by omega)]

theorem extBlock_ok (buf : List Byte) (i : Nat)
    (hl : i + 4 + 4 * be16 buf (i + 2) ≤ buf.length) :
    extBlock buf i
      = .ok (be16 buf i, (buf.drop (i + 4)).take (4 * be16 buf (i + 2)),
          i + 4 + 4 * be16 buf (i + 2)) := by
  obtain ⟨s, hs, hv⟩ := toUint_slice_two buf i (by omega)
  obtain ⟨l, hl2, hlv⟩ := toUint_slice_two buf (i + 2) (by omega)
  have e : i + 2 + 2 = i + 4 := rfl
  rw [e] at hl2
  unfold extBlock
  simp only [hs, hl2, hlv, hv]
  by_cases hpos : be16 buf (i + 2) > 0
  · simp only [hpos, if_true]
    rw [slice_ok buf _ _ (by omega) (by omega)]
    have e3 : i + 4 + be16 buf (i + 2) * 4 - (i + 4) = 4 * be16 buf (i + 2) := by omega
    have e4 : i + 4 + be16 buf (i + 2) * 4 = i + 4 + 4 * be16 buf (i + 2) := by omega
    rw [e3, e4]
  · have hz : be16 buf (i + 2) = 0 := by omega
    simp [hz]

theorem csrcLoop_range_ok (buf : List Byte) (c : Nat) (h : 12 + 4 * c ≤ buf.length) :
    csrcLoop buf (List.range (List.replicate c 0).length) (List.replicate c 0) 12
      = .ok ((List.range c).map (fun j => be32 buf (12 + 4 * j)), 12 + 4 * c) := by
  have := csrcLoop_ok buf c 0 (List.replicate c 0) (by simp) (by omega)
  simpa [List.range_eq_range'] using this

theorem csrcLoop_range_err (buf : List Byte) (c : Nat) (h : buf.length < 12 + 4 * c)
    (h12 : 12 ≤ buf.length) :
    csrcLoop buf (List.range (List.replicate c 0).length) (List.replicate c 0) 12
      = .error .outOfRange := by
  have := csrcLoop_err buf c 0 (List.replicate c 0) (by omega) (by omega)
  simpa [List.range_eq_range'] using this

theorem sliceFrom_ok (buf : List Byte) (i : Nat) (h : i ≤ buf.length) :
    sliceFrom buf i = .ok (buf.drop i) := by
  simp [sliceFrom, h]

theorem handleRtpPacket_short (buf : List Byte) (h : buf.length < 12) :
    handleRtpPacket buf = .error .outOfRange := by
  unfold handleRtpPacket
  by_cases h0 : buf.length ≤ 0
  · rw [index_err buf 0 h0]; rfl
  rw [index_ok buf 0 (by omega)]
  by_cases h1 : buf.length ≤ 1
  · rw [index_err buf 1 h1]; rfl
  rw [index_ok buf 1 (by omega)]
  by_cases h2 : buf.length < 4
  · rw [slice_err buf 2 4 h2]; rfl
  rw [slice_ok buf 2 4 (by omega) (by omega)]
  by_cases h3 : buf.length < 8
  · rw [slice_err buf 4 8 h3]; rfl
  rw [slice_ok buf 4 8 (by omega) (by omega)]
  rw [slice_err buf 8 12 h]; rfl

theorem handleRtpPacket_eq (buf : List Byte) : handleRtpPacket buf = decodeClosed buf := by
  by_cases h12 : buf.length < 12
  · rw [handleRtpPacket_short buf h12]; simp [decodeClosed, h12]
  have hi0 := index_ok buf 0 (by omega)
  have hi1 := index_ok buf 1 (by omega)
  have hseq : slice buf 2 4 = _ := slice_two buf 2 (by omega)
  have hts : slice buf 4 8 = _ := slice_four buf 4 (by omega)
  have hss : slice buf 8 12 = _ := slice_four buf 8 (by omega)
  unfold handleRtpPacket
  rw [hi0, hi1, hseq, hts, hss]
  simp only [bind, Except.bind, pure, Except.pure]
  rw [toUint_two, toUint_four, toUint_four]
  simp only [← byteAt_eq]
  unfold decodeClosed
  simp only [if_neg h12]
  by_cases hv : byteAt buf 0 &&& 3 = RTPVERSION
  · have hv2 : ¬ ((byteAt buf 0 &&& 3 != RTPVERSION) = true) := by simp [hv]
    have hv3 : ¬ (byteAt buf 0 &&& 3 ≠ RTPVERSION) := by simp [hv]
    simp only [if_neg hv2, if_neg hv3]
    by_cases hc : buf.length < 12 + 4 * (byteAt buf 0 >>> 4)
    · rw [csrcLoop_range_err buf _ hc (by omega)]
      simp only [if_pos hc]
    · rw [csrcLoop_range_ok buf _ (by omega)]
      simp only [if_neg hc]
      by_cases hx : (byteAt buf 0 &&& hasRtpExt != 0) = true
      · have hx2 : ¬ ((byteAt buf 0 &&& hasRtpExt != 0) = false) := by simp [hx]
        simp only [if_pos hx, if_neg hx2]
        by_cases h4 : buf.length < 12 + 4 * (byteAt buf 0 >>> 4) + 4
        · rw [extBlock_short buf _ h4]
          simp only [if_pos h4]
        · simp only [if_neg h4]
          by_cases hl : buf.length < 12 + 4 * (byteAt buf 0 >>> 4) + 4
              + 4 * be16 buf (12 + 4 * (byteAt buf 0 >>> 4) + 2)
          · rw [extBlock_overrun buf _ (by omega) hl]
            simp only [if_pos hl]
          · rw [extBlock_ok buf _ (by omega)]
            simp only [if_neg hl]
            rw [sliceFrom_ok buf _ (by omega)]
            rfl
      · have hx2 : (byteAt buf 0 &&& hasRtpExt != 0) = false := by simpa using hx
        simp only [if_neg hx, if_pos hx2]
        rw [sliceFrom_ok buf _ (by omega)]
        rfl
  · have hv2 : (byteAt buf 0 &&& 3 != RTPVERSION) = true := by simpa using hv
    simp only [if_pos hv2, if_pos hv]

set_option maxRecDepth 100000 in
theorem byte_bits (b : Byte) :
    b.val &&& 0x03 = b.val % 4 ∧ (b.val &&& hasRtpPadding != 0) = b.val.testBit 2
      ∧ (b.val &&& hasRtpExt != 0) = b.val.testBit 3 ∧ b.val >>> 4 = b.val / 16
      ∧ b.val >>> 4 ≤ 15 ∧ (b.val &&& 1 != 0) = b.val.testBit 0 ∧ b.val >>> 1 = b.val / 2
      ∧ b.val >>> 1 < 128 := by
  revert b
  decide

theorem handleRtpPacket_ok_length (buf : List Byte) (p : RtpPacket)
    (h : handleRtpPacket buf = .ok p) : 12 ≤ buf.length := by
  by_contra hlt
  rw [handleRtpPacket_short buf (by omega)] at h
  cases h

theorem handleRtpPacket_ok_inv (buf : List Byte) (p : RtpPacket)
    (h : handleRtpPacket buf = .ok p) :
    12 + 4 * (byteAt buf 0 >>> 4) ≤ buf.length
      ∧ byteAt buf 0 &&& 0x03 = RTPVERSION
      ∧ p.Version = byteAt buf 0 &&& 0x03
      ∧ p.Padding = (byteAt buf 0 &&& hasRtpPadding != 0)
      ∧ p.Ext = (byteAt buf 0 &&& hasRtpExt != 0)
      ∧ p.Marker = (byteAt buf 1 &&& 1 != 0)
      ∧ p.PayloadType = byteAt buf 1 >>> 1
      ∧ p.SequenceNumber = be16 buf 2
      ∧ p.Timestamp = be32 buf 4
      ∧ p.SyncSource = be32 buf 8
      ∧ p.CSRC = (List.range (byteAt buf 0 >>> 4)).map (fun j => be32 buf (12 + 4 * j))
      ∧ (p.Ext = false →
          p.ExtHeader = 0 ∧ p.ExtData = [] ∧ p.Payload = buf.drop (12 + 4 * (byteAt buf 0 >>> 4)))
      ∧ (p.Ext = true →
          12 + 4 * (byteAt buf 0 >>> 4) + 4
              + 4 * be16 buf (12 + 4 * (byteAt buf 0 >>> 4) + 2) ≤ buf.length
            ∧ p.ExtHeader = be16 buf (12 + 4 * (byteAt buf 0 >>> 4))
            ∧ p.ExtData = (buf.drop (12 + 4 * (byteAt buf 0 >>> 4) + 4)).take
                (4 * be16 buf (12 + 4 * (byteAt buf 0 >>> 4) + 2))
            ∧ p.Payload = buf.drop (12 + 4 * (byteAt buf 0 >>> 4) + 4
                + 4 * be16 buf (12 + 4 * (byteAt buf 0 >>> 4) + 2))) := by
  rw [handleRtpPacket_eq] at h
  unfold decodeClosed at h
  simp only at h
  split_ifs at h with h1 h2 h3 h4 h5 h6
  · cases h
    refine ⟨by omega, by simpa using h2, rfl, rfl, rfl, rfl, rfl, rfl, rfl, rfl, rfl, ?_, ?_⟩
    · intro _; exact ⟨rfl, rfl, rfl⟩
    · intro hx; simp only at hx; rw [h4] at hx; cases hx
  · cases h
    refine ⟨by omega, by simpa using h2, rfl, rfl, rfl, rfl, rfl, rfl, rfl, rfl, rfl, ?_, ?_⟩
    · intro hx; exact absurd hx h4
    · intro _; exact ⟨by omega, rfl, rfl, rfl⟩

theorem handleRtp_of_error (s : Session) (buf : List Byte) (e : Failure)
    (h : handleRtpPacket buf = .error e) : handleRtp s buf = .panicked e := by
  simp [handleRtp, h]

theorem handleRtpPacket_ok_noExt (buf : List Byte)
    (hc : 12 + 4 * (byteAt buf 0 >>> 4) ≤ buf.length)
    (hv : byteAt buf 0 &&& 0x03 = RTPVERSION) (hx : (byteAt buf 0 &&& hasRtpExt != 0) = false) :
    ∃ p, handleRtpPacket buf = .ok p := by
  rw [handleRtpPacket_eq]
  unfold decodeClosed
  simp only
  rw [if_neg (by omega), if_neg (by simp [hv]), if_neg (by omega), if_pos hx]
  exact ⟨_, rfl⟩

theorem handleRtpPacket_ok_ext (buf : List Byte)
    (hl : 12 + 4 * (byteAt buf 0 >>> 4) + 4
      + 4 * be16 buf (12 + 4 * (byteAt buf 0 >>> 4) + 2) ≤ buf.length)
    (hv : byteAt buf 0 &&& 0x03 = RTPVERSION) (hx : (byteAt buf 0 &&& hasRtpExt != 0) = true) :
    ∃ p, handleRtpPacket buf = .ok p := by
  rw [handleRtpPacket_eq]
  unfold decodeClosed
  simp only
  rw [if_neg (by omega), if_neg (by simp [hv]), if_neg (by omega), if_neg (by simp [hx]),
    if_neg (by omega), if_neg (by omega)]
  exact ⟨_, rfl⟩

theorem drop_take_get (buf : List Byte) (i n k : Nat) (hk : k < n) :
    ((buf.drop i).take n).get? k = buf.get? (i + k) := by
  simp [List.get?_eq_getElem?, List.getElem?_take, hk, List.getElem?_drop]

/-! ## The encoder against the decoder -/

theorem byteAt_drop (buf : List Byte) (n k : Nat) :
    byteAt (buf.drop n) k = byteAt buf (n + k) := by
  simp [byteAt, List.getElem?_drop]

theorem be16_drop (buf : List Byte) (n k : Nat) : be16 (buf.drop n) k = be16 buf (n + k) := by
  simp only [be16, byteAt_drop, Nat.add_assoc]

theorem be32_drop (buf : List Byte) (n k : Nat) : be32 (buf.drop n) k = be32 buf (n + k) := by
  simp only [be32, byteAt_drop, Nat.add_assoc]

theorem be16_putBe16 (v : Nat) (t : List Byte) (hv : v < 2 ^ 16) :
    be16 (putBe16 v ++ t) 0 = v := by
  simp [be16, byteAt, putBe16, byteOf]
  omega

theorem be32_putBe32 (v : Nat) (t : List Byte) (hv : v < 2 ^ 32) :
    be32 (putBe32 v ++ t) 0 = v := by
  simp [be32, byteAt, putBe32, byteOf]
  omega

theorem length_putCsrc (cs : List Nat) : (putCsrc cs).length = 4 * cs.length := by
  induction cs with
  | nil => rfl
  | cons v vs ih => simp [putCsrc, putBe32, ih]; omega

theorem be32_putCsrc (cs : List Nat) :
    ∀ (j : Nat) (t : List Byte), (∀ v ∈ cs, v < 2 ^ 32) → j < cs.length →
      cs.get? j = some (be32 (putCsrc cs ++ t) (4 * j)) := by
  induction cs with
  | nil => intro j t _ hj; simp at hj
  | cons v vs ih =>
    intro j t hb hj
    cases j with
    | zero =>
      simp only [putCsrc, List.append_assoc, List.get?_cons_zero, Nat.mul_zero]
      rw [be32_putBe32 v _ (hb v (by simp))]
    | succ j =>
      have e : 4 * (j + 1) = 4 + 4 * j := by omega
      rw [e, ← be32_drop]
      simp only [putCsrc, List.append_assoc, List.get?_cons_succ]
      rw [List.drop_left' (by rfl : (putBe32 v).length = 4)]
      exact ih j t (fun w hw => hb w (by simp [hw])) (by simpa using hj)

theorem header_byte0 : ∀ (c : Fin 16) (pad ext : Bool),
    ((2 % 4 + (if pad then 4 else 0) + (if ext then 8 else 0) + 16 * (c.val % 16)) % 256
        &&& 0x03 = 2)
      ∧ ((2 % 4 + (if pad then 4 else 0) + (if ext then 8 else 0) + 16 * (c.val % 16)) % 256
        &&& hasRtpPadding != 0) = pad
      ∧ ((2 % 4 + (if pad then 4 else 0) + (if ext then 8 else 0) + 16 * (c.val % 16)) % 256
        &&& hasRtpExt != 0) = ext
      ∧ ((2 % 4 + (if pad then 4 else 0) + (if ext then 8 else 0) + 16 * (c.val % 16)) % 256)
        >>> 4 = c.val := by
  decide

set_option maxRecDepth 100000 in
theorem header_byte1 : ∀ (pt : Fin 128) (m : Bool),
    (((if m then 1 else 0) + 2 * (pt.val % 128)) % 256 &&& 1 != 0) = m
      ∧ (((if m then 1 else 0) + 2 * (pt.val % 128)) % 256) >>> 1 = pt.val := by
  decide

theorem encode_byte0 (p : RtpPacket) (hv : p.Version = 2) (hc : p.CSRC.length ≤ 15) :
    byteAt (encode p) 0 &&& 0x03 = 2
      ∧ (byteAt (encode p) 0 &&& hasRtpPadding != 0) = p.Padding
      ∧ (byteAt (encode p) 0 &&& hasRtpExt != 0) = p.Ext
      ∧ byteAt (encode p) 0 >>> 4 = p.CSRC.length := by
  have h := header_byte0 ⟨p.CSRC.length, by omega⟩ p.Padding p.Ext
  have e : byteAt (encode p) 0
      = (2 % 4 + (if p.Padding then 4 else 0) + (if p.Ext then 8 else 0)
          + 16 * (p.CSRC.length % 16)) % 256 := by
    simp [encode, fixedHeader, byteAt, byteOf, hv]
  rw [e]
  exact h

theorem encode_byte1 (p : RtpPacket) (hpt : p.PayloadType < 128) :
    (byteAt (encode p) 1 &&& 1 != 0) = p.Marker ∧ byteAt (encode p) 1 >>> 1 = p.PayloadType := by
  have h := header_byte1 ⟨p.PayloadType, hpt⟩ p.Marker
  have e : byteAt (encode p) 1
      = ((if p.Marker then 1 else 0) + 2 * (p.PayloadType % 128)) % 256 := by
    simp [encode, fixedHeader, byteAt, byteOf]
  rw [e]
  exact h

theorem encode_fixed (p : RtpPacket) (hseq : p.SequenceNumber < 2 ^ 16)
    (hts : p.Timestamp < 2 ^ 32) (hss : p.SyncSource < 2 ^ 32) :
    be16 (encode p) 2 = p.SequenceNumber ∧ be32 (encode p) 4 = p.Timestamp
      ∧ be32 (encode p) 8 = p.SyncSource := by
  refine ⟨?_, ?_, ?_⟩
  · simp [encode, fixedHeader, be16, byteAt, putBe16, putBe32, byteOf]
    omega
  · simp [encode, fixedHeader, be32, byteAt, putBe16, putBe32, byteOf]
    omega
  · simp [encode, fixedHeader, be32, byteAt, putBe16, putBe32, byteOf]
    omega

theorem drop_encode (p : RtpPacket) :
    (encode p).drop 12 = putCsrc p.CSRC ++ (extBytes p ++ p.Payload)
      ∧ (encode p).drop (12 + 4 * p.CSRC.length) = extBytes p ++ p.Payload := by
  have h12 : (encode p).drop 12 = putCsrc p.CSRC ++ (extBytes p ++ p.Payload) :=
    List.drop_left' (by rfl : (fixedHeader p).length = 12)
  refine ⟨h12, ?_⟩
  rw [← List.drop_drop, h12, List.drop_left' (length_putCsrc p.CSRC)]

theorem length_encode (p : RtpPacket) :
    (encode p).length = 12 + 4 * p.CSRC.length + (extBytes p).length + p.Payload.length := by
  have h : (fixedHeader p).length = 12 := rfl
  simp only [encode, List.length_append, h, length_putCsrc]
  omega

theorem encode_csrc (p : RtpPacket) (hcs : ∀ v ∈ p.CSRC, v < 2 ^ 32) :
    (List.range p.CSRC.length).map (fun j => be32 (encode p) (12 + 4 * j)) = p.CSRC := by
  apply List.ext_get?
  intro j
  by_cases hj : j < p.CSRC.length
  · rw [be32_putCsrc p.CSRC j (extBytes p ++ p.Payload) hcs hj, ← (drop_encode p).1, be32_drop]
    simp [List.get?_eq_getElem?, List.getElem?_map, List.getElem?_range hj]
  · simp [List.get?_eq_getElem?, List.getElem?_eq_none, Nat.le_of_not_lt hj]

theorem packet_ext (p q : RtpPacket) (h1 : q.Version = p.Version) (h2 : q.Padding = p.Padding)
    (h3 : q.Ext = p.Ext) (h4 : q.Marker = p.Marker) (h5 : q.PayloadType = p.PayloadType)
    (h6 : q.SequenceNumber = p.SequenceNumber) (h7 : q.Timestamp = p.Timestamp)
    (h8 : q.SyncSource = p.SyncSource) (h9 : q.CSRC = p.CSRC) (h10 : q.ExtHeader = p.ExtHeader)
    (h11 : q.ExtData = p.ExtData) (h12 : q.Payload = p.Payload) : q = p := by
  cases p
  cases q
  simp_all

theorem encode_ext (p : RtpPacket) (hx : p.Ext = true) (hdiv : 4 ∣ p.ExtData.length)
    (hh : p.ExtHeader < 2 ^ 16) (hlen : p.ExtData.length ≤ 4 * 65535) :
    be16 (encode p) (12 + 4 * p.CSRC.length) = p.ExtHeader
      ∧ 4 * be16 (encode p) (12 + 4 * p.CSRC.length + 2) = p.ExtData.length
      ∧ (encode p).drop (12 + 4 * p.CSRC.length + 4) = p.ExtData ++ p.Payload := by
  have hd := (drop_encode p).2
  have he : extBytes p
      = putBe16 p.ExtHeader ++ (putBe16 (p.ExtData.length / 4) ++ p.ExtData) := by
    simp [extBytes, hx]
  rw [he] at hd
  have h2 : (encode p).drop (12 + 4 * p.CSRC.length + 2)
      = putBe16 (p.ExtData.length / 4) ++ (p.ExtData ++ p.Payload) := by
    rw [← List.drop_drop, hd, List.append_assoc,
      List.drop_left' (by rfl : (putBe16 p.ExtHeader).length = 2), List.append_assoc]
  refine ⟨?_, ?_, ?_⟩
  · have := be16_drop (encode p) (12 + 4 * p.CSRC.length) 0
    rw [Nat.add_zero] at this
    rw [← this, hd, List.append_assoc]
    exact be16_putBe16 _ _ hh
  · have := be16_drop (encode p) (12 + 4 * p.CSRC.length + 2) 0
    rw [Nat.add_zero] at this
    rw [← this, h2, be16_putBe16 _ _ (by omega)]
    omega
  · have e : 12 + 4 * p.CSRC.length + 4 = 12 + 4 * p.CSRC.length + 2 + 2 := by omega
    rw [e, ← List.drop_drop, h2,
      List.drop_left' (by rfl : (putBe16 (p.ExtData.length / 4)).length = 2)]

/-! ## The access log of the decoder -/

theorem andThen_snd {α β : Type} (r : Logged α) (f : α → Logged β) :
    (r.andThen f).2 = match r.2 with
      | .error e => .error e
      | .ok a => (f a).2 := by
  unfold Logged.andThen
  cases r.2 <;> rfl

theorem csrcLoopLog_snd (buf : List Byte) (js : List Nat) :
    ∀ (csrc : List Nat) (i : Nat), (csrcLoopLog buf js csrc i).2 = csrcLoop buf js csrc i := by
  induction js with
  | nil => intro csrc i; rfl
  | cons j js ih =>
    intro csrc i
    simp only [csrcLoopLog, csrcLoop, andThen_snd, logSlice]
    cases slice buf i (i + 4) with
    | error e => rfl
    | ok s => exact ih _ _

theorem extBlockLog_snd (buf : List Byte) (i : Nat) :
    (extBlockLog buf i).2 = extBlock buf i := by
  simp only [extBlockLog, extBlock, andThen_snd, logSlice]
  cases slice buf i (i + 2) with
  | error e => rfl
  | ok h =>
    cases slice buf (i + 2) (i + 4) with
    | error e => rfl
    | ok l =>
      by_cases hl : toUint l > 0
      · simp only [hl, if_true, andThen_snd]
        cases slice buf (i + 4) (i + 4 + toUint l * 4) <;> rfl
      · simp only [hl, if_false]

theorem handleRtpLog_snd (buf : List Byte) : (handleRtpLog buf).2 = handleRtpPacket buf := by
  simp only [handleRtpLog, handleRtpPacket, andThen_snd, logIndex, logSlice, logSliceFrom,
    bind, Except.bind, pure, Except.pure]
  cases index buf 0 with
  | error e => rfl
  | ok b0 =>
    cases index buf 1 with
    | error e => rfl
    | ok b1 =>
      cases slice buf 2 4 with
      | error e => rfl
      | ok seq =>
        cases slice buf 4 8 with
        | error e => rfl
        | ok ts =>
          cases slice buf 8 12 with
          | error e => rfl
          | ok ssrc =>
            simp only
            by_cases hv : (b0.val &&& 0x03 != RTPVERSION) = true
            · simp only [if_pos hv]
            · simp only [if_neg hv, andThen_snd, csrcLoopLog_snd]
              cases csrcLoop buf (List.range (List.replicate (b0.val >>> 4) 0).length)
                  (List.replicate (b0.val >>> 4) 0) 12 with
              | error e => rfl
              | ok ci =>
                simp only
                by_cases hx : (b0.val &&& hasRtpExt != 0) = true
                · simp only [if_pos hx, extBlockLog_snd]
                  cases extBlock buf ci.2 with
                  | error e => rfl
                  | ok ext =>
                    simp only
                    cases sliceFrom buf ext.2.2 <;> rfl
                · simp only [if_neg hx]
                  cases sliceFrom buf ci.2 <;> rfl

theorem sound_nil_ok {α : Type} (n : Nat) (x : α) :
    Logged.Sound n (([], .ok x) : Logged α) :=
  ⟨fun h => (by cases h), fun _ x hx => (by cases hx)⟩

theorem sound_nil_version {α : Type} (n : Nat) :
    Logged.Sound n (([], .error .unsupportedVersion) : Logged α) :=
  ⟨fun h => (by cases h), fun _ x hx => (by cases hx)⟩

theorem sound_andThen {α β : Type} (n : Nat) (r : Logged α) (f : α → Logged β)
    (hr : r.Sound n) (hf : ∀ a, r.2 = .ok a → (f a).Sound n) : (r.andThen f).Sound n := by
  obtain ⟨l, res⟩ := r
  cases res with
  | error e =>
    have e0 : Logged.andThen (l, (Except.error e : Except Failure α)) f = (l, .error e) := rfl
    rw [e0]
    constructor
    · intro h
      have he : e = .outOfRange := by cases h; rfl
      exact hr.1 (by rw [he])
    · intro h
      exact hr.2 (fun h2 => h (by cases h2; rfl))
  | ok a =>
    have hl : ∀ x ∈ l, x.inRange n = true := hr.2 (by intro h; cases h)
    obtain ⟨g1, g2⟩ := hf a rfl
    constructor
    · intro h
      obtain ⟨pre, b, e1, e2, e3⟩ := g1 h
      refine ⟨l ++ pre, b, ?_, ?_, e3⟩
      · show l ++ (f a).1 = l ++ pre ++ [b]
        rw [e1, List.append_assoc]
      · intro x hx
        rcases List.mem_append.1 hx with h1 | h1
        · exact hl x h1
        · exact e2 x h1
    · intro h x hx
      have hx2 : x ∈ l ++ (f a).1 := hx
      rcases List.mem_append.1 hx2 with h1 | h1
      · exact hl x h1
      · exact g2 h x h1

theorem sound_single {α : Type} (n : Nat) (a : Access) (res : Except Failure α)
    (hok : ∀ x, res = .ok x → a.inRange n = true)
    (herr : ∀ e, res = .error e → e = .outOfRange ∧ a.inRange n = false) :
    Logged.Sound n (([a], res) : Logged α) := by
  constructor
  · intro h
    exact ⟨[], a, rfl, fun x hx => (by cases hx), (herr _ h).2⟩
  · intro h x hx
    have hxa : x = a := by simpa using hx
    subst hxa
    cases hres : res with
    | ok v => exact hok v hres
    | error e =>
      obtain ⟨he, -⟩ := herr e hres
      subst he
      exact absurd hres h

theorem sound_logIndex (buf : List Byte) (i : Nat) :
    (logIndex buf i).Sound buf.length := by
  by_cases h : i < buf.length
  · have := index_ok buf i h
    exact sound_single _ _ _ (fun _ _ => by simp [Access.inRange, h])
      (fun e he => by rw [this] at he; cases he)
  · have := index_err buf i (Nat.le_of_not_lt h)
    exact sound_single _ _ _ (fun x hx => by rw [this] at hx; cases hx)
      (fun e he => by rw [this] at he; cases he; exact ⟨rfl, by simp [Access.inRange, h]⟩)

theorem sound_logSlice (buf : List Byte) (i j : Nat) :
    (logSlice buf i j).Sound buf.length := by
  by_cases h : i ≤ j ∧ j ≤ buf.length
  · have : slice buf i j = .ok ((buf.drop i).take (j - i)) := by simp [slice, h]
    exact sound_single _ _ _ (fun _ _ => by simp [Access.inRange, h])
      (fun e he => by rw [this] at he; cases he)
  · have : slice buf i j = .error .outOfRange := by simp only [slice, if_neg h]
    exact sound_single _ _ _ (fun x hx => by rw [this] at hx; cases hx)
      (fun e he => by rw [this] at he; cases he; exact ⟨rfl, by simp [Access.inRange, h]⟩)

theorem sound_logSliceFrom (buf : List Byte) (i : Nat) :
    (logSliceFrom buf i).Sound buf.length := by
  by_cases h : i ≤ buf.length
  · have : sliceFrom buf i = .ok (buf.drop i) := by simp [sliceFrom, h]
    exact sound_single _ _ _ (fun _ _ => by simp [Access.inRange, h])
      (fun e he => by rw [this] at he; cases he)
  · have : sliceFrom buf i = .error .outOfRange := by simp only [sliceFrom, if_neg h]
    exact sound_single _ _ _ (fun x hx => by rw [this] at hx; cases hx)
      (fun e he => by rw [this] at he; cases he; exact ⟨rfl, by simp [Access.inRange, h]⟩)

theorem sound_csrcLoopLog (buf : List Byte) (js : List Nat) :
    ∀ (csrc : List Nat) (i : Nat), (csrcLoopLog buf js csrc i).Sound buf.length := by
  induction js with
  | nil => intro csrc i; exact sound_nil_ok _ _
  | cons j js ih =>
    intro csrc i
    exact sound_andThen _ _ _ (sound_logSlice buf i (i + 4)) (fun s _ => ih _ _)

theorem sound_extBlockLog (buf : List Byte) (i : Nat) :
    (extBlockLog buf i).Sound buf.length := by
  refine sound_andThen _ _ _ (sound_logSlice buf i (i + 2)) (fun h _ => ?_)
  refine sound_andThen _ _ _ (sound_logSlice buf (i + 2) (i + 4)) (fun l _ => ?_)
  by_cases hl : toUint l > 0
  · simp only [hl, if_true]
    exact sound_andThen _ _ _ (sound_logSlice buf _ _) (fun d _ => sound_nil_ok _ _)
  · simp only [hl, if_false]
    exact sound_nil_ok _ _

theorem sound_handleRtpLog (buf : List Byte) : (handleRtpLog buf).Sound buf.length := by
  refine sound_andThen _ _ _ (sound_logIndex buf 0) (fun b0 _ => ?_)
  refine sound_andThen _ _ _ (sound_logIndex buf 1) (fun b1 _ => ?_)
  refine sound_andThen _ _ _ (sound_logSlice buf 2 4) (fun seq _ => ?_)
  refine sound_andThen _ _ _ (sound_logSlice buf 4 8) (fun ts _ => ?_)
  refine sound_andThen _ _ _ (sound_logSlice buf 8 12) (fun ssrc _ => ?_)
  by_cases hv : (b0.val &&& 0x03 != RTPVERSION) = true
  · simp only [if_pos hv]
    exact sound_nil_version _
  · simp only [if_neg hv]
    refine sound_andThen _ _ _ (sound_csrcLoopLog buf _ _ _) (fun ci _ => ?_)
    refine sound_andThen _ _ _ ?_ (fun ext _ => ?_)
    · by_cases hx : (b0.val &&& hasRtpExt != 0) = true
      · simp only [if_pos hx]
        exact sound_extBlockLog buf _
      · simp only [if_neg hx]
        exact sound_nil_ok _ _
    · exact sound_andThen _ _ _ (sound_logSliceFrom buf _) (fun payload _ => sound_nil_ok _ _)

theorem andThen_error {α β : Type} (l : List Access) (e : Failure) (f : α → Logged β) :
    Logged.andThen ((l, .error e) : Logged α) f = (l, .error e) := rfl

theorem andThen_ok {α β : Type} (l : List Access) (a : α) (f : α → Logged β) :
    Logged.andThen ((l, .ok a) : Logged α) f = (l ++ (f a).1, (f a).2) := rfl

theorem handleRtpLog_short (buf : List Byte) (h : buf.length < 12) :
    handleRtpLog buf
      = (if buf.length < 1 then [Access.index 0]
          else if buf.length < 2 then [Access.index 0, Access.index 1]
          else if buf.length < 4 then [Access.index 0, Access.index 1, Access.slice 2 4]
          else if buf.length < 8 then
            [Access.index 0, Access.index 1, Access.slice 2 4, Access.slice 4 8]
          else [Access.index 0, Access.index 1, Access.slice 2 4, Access.slice 4 8,
            Access.slice 8 12],
        .error .outOfRange) := by
  unfold handleRtpLog logIndex logSlice
  by_cases h0 : buf.length < 1
  · rw [index_err buf 0 (by omega), andThen_error, if_pos h0]
  rw [index_ok buf 0 (by omega), andThen_ok, if_neg h0]
  by_cases h1 : buf.length < 2
  · rw [index_err buf 1 (by omega), andThen_error, if_pos h1]
    rfl
  rw [index_ok buf 1 (by omega), andThen_ok, if_neg h1]
  by_cases h2 : buf.length < 4
  · rw [slice_err buf 2 4 h2, andThen_error, if_pos h2]
    rfl
  rw [slice_ok buf 2 4 (by omega) (by omega), andThen_ok, if_neg h2]
  by_cases h3 : buf.length < 8
  · rw [slice_err buf 4 8 h3, andThen_error, if_pos h3]
    rfl
  rw [slice_ok buf 4 8 (by omega) (by omega), andThen_ok, if_neg h3,
    slice_err buf 8 12 h, andThen_error]
  rfl

theorem handleRtpLog_fixed (buf : List Byte) (h : 12 ≤ buf.length) :
    ∃ t, (handleRtpLog buf).1
      = [Access.index 0, Access.index 1, Access.slice 2 4, Access.slice 4 8, Access.slice 8 12]
          ++ t := by
  unfold handleRtpLog logIndex logSlice
  rw [index_ok buf 0 (by omega), andThen_ok, index_ok buf 1 (by omega), andThen_ok,
    slice_ok buf 2 4 (by omega) (by omega), andThen_ok,
    slice_ok buf 4 8 (by omega) (by omega), andThen_ok,
    slice_ok buf 8 12 (by omega) (by omega), andThen_ok]
  exact ⟨_, rfl⟩

theorem log_of_out_of_range (buf : List Byte) (h : handleRtpPacket buf = .error .outOfRange) :
    ∃ pre a, handleRtpLog buf = (pre ++ [a], .error .outOfRange)
      ∧ (∀ x ∈ pre, x.inRange buf.length = true) ∧ a.inRange buf.length = false := by
  have h2 : (handleRtpLog buf).2 = .error .outOfRange := by rw [handleRtpLog_snd, h]
  obtain ⟨pre, a, e1, e2, e3⟩ := (sound_handleRtpLog buf).1 h2
  exact ⟨pre, a, Prod.ext e1 h2, e2, e3⟩

theorem log_after_fixed (buf : List Byte) (h12 : 12 ≤ buf.length)
    (h : handleRtpPacket buf = .error .outOfRange) :
    ∃ mid a, handleRtpLog buf
        = ([Access.index 0, Access.index 1, Access.slice 2 4, Access.slice 4 8,
            Access.slice 8 12] ++ mid ++ [a], .error .outOfRange)
      ∧ (∀ x ∈ mid, x.inRange buf.length = true) ∧ a.inRange buf.length = false := by
  obtain ⟨pre, a, e1, e2, e3⟩ := log_of_out_of_range buf h
  obtain ⟨t, ht⟩ := handleRtpLog_fixed buf h12
  rw [e1] at ht
  have ht' : pre ++ [a] = [Access.index 0, Access.index 1, Access.slice 2 4, Access.slice 4 8,
      Access.slice 8 12] ++ t := ht
  rcases List.eq_nil_or_concat t with rfl | ⟨mid, b, rfl⟩
  · exfalso
    have hlast : a = Access.slice 8 12 := by
      have := congrArg List.getLast? ht'
      simpa using this
    rw [hlast] at e3
    simp [Access.inRange] at e3
    omega
  · rw [List.concat_eq_append, ← List.append_assoc] at ht'
    obtain ⟨hp, ha⟩ := List.append_inj' ht' rfl
    have hab : a = b := by simpa using ha
    subst hab
    refine ⟨mid, a, ?_, ?_, e3⟩
    · rw [e1, hp]
    · intro x hx
      exact e2 x (by rw [hp]; exact List.mem_append_right _ hx)

/-! ## Properties of the decoder -/

/-- C1, the code at the scenario buffer: the low two bits of `0x80` are `0`, so
`handleRtp` panics with "Unsupported version" and publishes nothing, whatever
the session; no packet is produced. -/
theorem handleRtp_exampleBuf_unsupported :
    byteAt exampleBuf 0 &&& 0x03 = 0
      ∧ handleRtpPacket exampleBuf = .error .unsupportedVersion
      ∧ ∀ s, handleRtp s exampleBuf = .panicked .unsupportedVersion :=
  ⟨by decide, by decide, fun s => handleRtp_of_error s _ _ (by decide)⟩

/-- C2: whenever decoding succeeds, the fields taken from bytes 0 and 1 are
`Version = buf[0] & 0x03` (the low two bits), `Padding` = bit 2 of `buf[0]`,
`Ext` = bit 3 of `buf[0]`, CSRC count `= buf[0] >> 4` (the high four bits),
`Marker` = bit 0 of `buf[1]` and `PayloadType = buf[1] >> 1` (the other seven
bits); nothing alters these values afterwards. -/
theorem handleRtpPacket_byte_fields (buf : List Byte) (p : RtpPacket)
    (h : handleRtpPacket buf = .ok p) :
    2 ≤ buf.length
      ∧ p.Version = byteAt buf 0 &&& 0x03 ∧ p.Version = byteAt buf 0 % 4
      ∧ p.Padding = (byteAt buf 0).testBit 2
      ∧ p.Ext = (byteAt buf 0).testBit 3
      ∧ p.CSRC.length = byteAt buf 0 >>> 4 ∧ p.CSRC.length = byteAt buf 0 / 16
      ∧ p.Marker = (byteAt buf 1).testBit 0
      ∧ p.PayloadType = byteAt buf 1 >>> 1 ∧ p.PayloadType = byteAt buf 1 / 2 := by
  have hlen := handleRtpPacket_ok_length buf p h
  obtain ⟨a1, a2, a3, a4, -, -, -, -⟩ := byte_bits (buf.getD 0 0)
  obtain ⟨-, -, -, -, -, c1, c2, -⟩ := byte_bits (buf.getD 1 0)
  simp only [← byteAt_eq] at a1 a2 a3 a4 c1 c2
  obtain ⟨-, -, h1, h2, h3, h4, h5, -, -, -, h6, -, -⟩ := handleRtpPacket_ok_inv buf p h
  refine ⟨by omega, h1, by rw [h1, a1], by rw [h2, a2], by rw [h3, a3], by simp [h6],
    by simp [h6, a4], by rw [h4, c1], h5, by rw [h5, c2]⟩

/-- Witness of C2 on `sampleBuf`. -/
theorem handleRtpPacket_byte_fields_witness :
    handleRtpPacket sampleBuf = .ok samplePacket
      ∧ 2 ≤ sampleBuf.length
      ∧ samplePacket.Version = byteAt sampleBuf 0 &&& 0x03
      ∧ samplePacket.Version = byteAt sampleBuf 0 % 4
      ∧ samplePacket.Padding = (byteAt sampleBuf 0).testBit 2
      ∧ samplePacket.Ext = (byteAt sampleBuf 0).testBit 3
      ∧ samplePacket.CSRC.length = byteAt sampleBuf 0 >>> 4
      ∧ samplePacket.CSRC.length = byteAt sampleBuf 0 / 16
      ∧ samplePacket.Marker = (byteAt sampleBuf 1).testBit 0
      ∧ samplePacket.PayloadType = byteAt sampleBuf 1 >>> 1
      ∧ samplePacket.PayloadType = byteAt sampleBuf 1 / 2 :=
  ⟨by decide, handleRtpPacket_byte_fields sampleBuf samplePacket (by decide)⟩

/-- C3: whenever decoding succeeds, `SequenceNumber = 256*buf[2] + buf[3]`,
`Timestamp = buf[4]*2^24 + buf[5]*2^16 + buf[6]*2^8 + buf[7]` and
`SyncSource = buf[8]*2^24 + buf[9]*2^16 + buf[10]*2^8 + buf[11]`; each is what
`toUint` returns on the slice `buf[2:4]`, `buf[4:8]`, `buf[8:12]`, whose OR of
shifted bytes equals the positional sum. -/
theorem handleRtpPacket_be_fields (buf : List Byte) (p : RtpPacket)
    (h : handleRtpPacket buf = .ok p) :
    p.SequenceNumber = 256 * byteAt buf 2 + byteAt buf 3
      ∧ p.Timestamp
          = byteAt buf 4 * 2 ^ 24 + byteAt buf 5 * 2 ^ 16 + byteAt buf 6 * 2 ^ 8 + byteAt buf 7
      ∧ p.SyncSource
          = byteAt buf 8 * 2 ^ 24 + byteAt buf 9 * 2 ^ 16 + byteAt buf 10 * 2 ^ 8 + byteAt buf 11
      ∧ (∃ s, slice buf 2 4 = .ok s ∧ toUint s = p.SequenceNumber)
      ∧ (∃ s, slice buf 4 8 = .ok s ∧ toUint s = p.Timestamp)
      ∧ (∃ s, slice buf 8 12 = .ok s ∧ toUint s = p.SyncSource) := by
  have hlen := handleRtpPacket_ok_length buf p h
  obtain ⟨-, -, -, -, -, -, -, h1, h2, h3, -, -, -⟩ := handleRtpPacket_ok_inv buf p h
  refine ⟨?_, by rw [h2]; rfl, by rw [h3]; rfl, ?_, ?_, ?_⟩
  · rw [h1]
    change byteAt buf 2 * 2 ^ 8 + byteAt buf 3 = _
    omega
  · rw [h1]; exact toUint_slice_two buf 2 (by omega)
  · rw [h2]; exact toUint_slice_four buf 4 (by omega)
  · rw [h3]; exact toUint_slice_four buf 8 (by omega)

/-- Witness of C3 on `sampleBufCsrc`, whose three spans are `0x1234`,
`0x01020304` and `0x05060708`. -/
theorem handleRtpPacket_be_fields_witness :
    handleRtpPacket sampleBufCsrc = .ok samplePacketCsrc
      ∧ samplePacketCsrc.SequenceNumber = 256 * 0x12 + 0x34
      ∧ samplePacketCsrc.Timestamp = 1 * 2 ^ 24 + 2 * 2 ^ 16 + 3 * 2 ^ 8 + 4
      ∧ samplePacketCsrc.SyncSource = 5 * 2 ^ 24 + 6 * 2 ^ 16 + 7 * 2 ^ 8 + 8
      ∧ (∃ s, slice sampleBufCsrc 2 4 = .ok s ∧ toUint s = samplePacketCsrc.SequenceNumber)
      ∧ (∃ s, slice sampleBufCsrc 4 8 = .ok s ∧ toUint s = samplePacketCsrc.Timestamp)
      ∧ (∃ s, slice sampleBufCsrc 8 12 = .ok s ∧ toUint s = samplePacketCsrc.SyncSource) :=
  ⟨by decide, handleRtpPacket_be_fields sampleBufCsrc samplePacketCsrc (by decide)⟩

/-- C4: for a buffer with version bits 2, the extension flag clear and room for
its `c = buf[0] >> 4` CSRC entries (`12 + 4*c ≤ len(buf)`), decoding succeeds,
`c ≤ 15`, the CSRC list has exactly `c` entries, and entry `j` is the big-endian
32-bit value of bytes `12+4j .. 12+4j+3`, in wire order. -/
theorem handleRtpPacket_csrc (buf : List Byte)
    (hc : 12 + 4 * (byteAt buf 0 >>> 4) ≤ buf.length)
    (hv : byteAt buf 0 &&& 0x03 = 2) (hx : byteAt buf 0 &&& hasRtpExt = 0) :
    byteAt buf 0 >>> 4 ≤ 15
      ∧ ∃ p, handleRtpPacket buf = .ok p
          ∧ p.CSRC.length = byteAt buf 0 >>> 4
          ∧ ∀ j, j < byteAt buf 0 >>> 4 →
              p.CSRC.get? j
                = some (byteAt buf (12 + 4 * j) * 2 ^ 24 + byteAt buf (12 + 4 * j + 1) * 2 ^ 16
                    + byteAt buf (12 + 4 * j + 2) * 2 ^ 8 + byteAt buf (12 + 4 * j + 3)) := by
  obtain ⟨p, hp⟩ := handleRtpPacket_ok_noExt buf hc hv (by simp [hx])
  obtain ⟨-, -, -, -, -, -, -, -, -, -, h6, -, -⟩ := handleRtpPacket_ok_inv buf p hp
  refine ⟨(byte_bits (buf.getD 0 0)).2.2.2.2.1, p, hp, by simp [h6], ?_⟩
  intro j hj
  rw [h6]
  simp [List.get?_eq_getElem?, List.getElem?_map, List.getElem?_range hj, be32]

/-- Witness of C4 on `sampleBufCsrc` (two CSRC entries, `5` and `256`). -/
theorem handleRtpPacket_csrc_witness :
    12 + 4 * (byteAt sampleBufCsrc 0 >>> 4) ≤ sampleBufCsrc.length
      ∧ byteAt sampleBufCsrc 0 &&& 0x03 = 2 ∧ byteAt sampleBufCsrc 0 &&& hasRtpExt = 0
      ∧ byteAt sampleBufCsrc 0 >>> 4 = 2
      ∧ byteAt sampleBufCsrc 0 >>> 4 ≤ 15
      ∧ ∃ p, handleRtpPacket sampleBufCsrc = .ok p
          ∧ p.CSRC.length = byteAt sampleBufCsrc 0 >>> 4
          ∧ ∀ j, j < byteAt sampleBufCsrc 0 >>> 4 →
              p.CSRC.get? j
                = some (byteAt sampleBufCsrc (12 + 4 * j) * 2 ^ 24
                    + byteAt sampleBufCsrc (12 + 4 * j + 1) * 2 ^ 16
                    + byteAt sampleBufCsrc (12 + 4 * j + 2) * 2 ^ 8
                    + byteAt sampleBufCsrc (12 + 4 * j + 3)) :=
  ⟨by decide, by decide, by decide, by decide,
    handleRtpPacket_csrc sampleBufCsrc (by decide) (by decide) (by decide)⟩

/-- C5: for a buffer with version bits 2, the extension flag set, CSRC count
`c = buf[0] >> 4` and declared extension length `L` (the big-endian 16-bit value
at offset `12+4c+2`) that holds the whole block (`12+4c+4+4L ≤ len(buf)`),
decoding succeeds with `Ext` set, `ExtHeader` the big-endian 16-bit value at
offset `12+4c`, and `ExtData` the `4*L` bytes from offset `12+4c+4` on, byte for
byte; its length is exactly `4*L`, and it is empty when `L = 0`. -/
theorem handleRtpPacket_ext (buf : List Byte)
    (hl : 12 + 4 * (byteAt buf 0 >>> 4) + 4
      + 4 * be16 buf (12 + 4 * (byteAt buf 0 >>> 4) + 2) ≤ buf.length)
    (hv : byteAt buf 0 &&& 0x03 = 2) (hx : byteAt buf 0 &&& hasRtpExt ≠ 0) :
    ∃ p, handleRtpPacket buf = .ok p
      ∧ p.Ext = true
      ∧ p.ExtHeader = be16 buf (12 + 4 * (byteAt buf 0 >>> 4))
      ∧ p.ExtData = (buf.drop (12 + 4 * (byteAt buf 0 >>> 4) + 4)).take
          (4 * be16 buf (12 + 4 * (byteAt buf 0 >>> 4) + 2))
      ∧ p.ExtData.length = 4 * be16 buf (12 + 4 * (byteAt buf 0 >>> 4) + 2)
      ∧ (∀ k, k < 4 * be16 buf (12 + 4 * (byteAt buf 0 >>> 4) + 2) →
          p.ExtData.get? k = buf.get? (12 + 4 * (byteAt buf 0 >>> 4) + 4 + k))
      ∧ (be16 buf (12 + 4 * (byteAt buf 0 >>> 4) + 2) = 0 → p.ExtData = []) := by
  have hxb : (byteAt buf 0 &&& hasRtpExt != 0) = true := by simpa using hx
  obtain ⟨p, hp⟩ := handleRtpPacket_ok_ext buf hl hv hxb
  obtain ⟨-, -, -, -, h3, -, -, -, -, -, -, -, he⟩ := handleRtpPacket_ok_inv buf p hp
  have hext : p.Ext = true := by rw [h3, hxb]
  obtain ⟨-, e1, e2, -⟩ := he hext
  refine ⟨p, hp, hext, e1, e2, ?_, ?_, ?_⟩
  · rw [e2, List.length_take, List.length_drop]; omega
  · intro k hk
    rw [e2]
    exact drop_take_get buf _ _ k hk
  · intro hz
    rw [e2, hz]
    rfl

/-- Witness of C5 on `sampleBuf` (`c = 1`, `ExtHeader = 9`, `L = 1`). -/
theorem handleRtpPacket_ext_witness :
    12 + 4 * (byteAt sampleBuf 0 >>> 4) + 4
        + 4 * be16 sampleBuf (12 + 4 * (byteAt sampleBuf 0 >>> 4) + 2) ≤ sampleBuf.length
      ∧ byteAt sampleBuf 0 &&& 0x03 = 2 ∧ byteAt sampleBuf 0 &&& hasRtpExt ≠ 0
      ∧ ∃ p, handleRtpPacket sampleBuf = .ok p
          ∧ p.Ext = true
          ∧ p.ExtHeader = be16 sampleBuf (12 + 4 * (byteAt sampleBuf 0 >>> 4))
          ∧ p.ExtData = (sampleBuf.drop (12 + 4 * (byteAt sampleBuf 0 >>> 4) + 4)).take
              (4 * be16 sampleBuf (12 + 4 * (byteAt sampleBuf 0 >>> 4) + 2))
          ∧ p.ExtData.length = 4 * be16 sampleBuf (12 + 4 * (byteAt sampleBuf 0 >>> 4) + 2)
          ∧ (∀ k, k < 4 * be16 sampleBuf (12 + 4 * (byteAt sampleBuf 0 >>> 4) + 2) →
              p.ExtData.get? k = sampleBuf.get? (12 + 4 * (byteAt sampleBuf 0 >>> 4) + 4 + k))
          ∧ (be16 sampleBuf (12 + 4 * (byteAt sampleBuf 0 >>> 4) + 2) = 0 → p.ExtData = []) :=
  ⟨by decide, by decide, by decide,
    handleRtpPacket_ext sampleBuf (by decide) (by decide) (by decide)⟩

/-- C6: whenever decoding succeeds, `Payload` is the suffix of the buffer from
offset `12 + 4*c + (4 + 4*L if Ext else 0)` on, with `c = buf[0] >> 4` the CSRC
count and `L` the declared extension length; it may be empty, and
`len(buf) = 12 + 4*len(CSRC) + (4 + len(ExtData) if Ext else 0) + len(Payload)`. -/
theorem handleRtpPacket_payload (buf : List Byte) (p : RtpPacket)
    (h : handleRtpPacket buf = .ok p) :
    p.Ext = (byteAt buf 0 &&& hasRtpExt != 0)
      ∧ p.Payload = buf.drop (12 + 4 * (byteAt buf 0 >>> 4)
          + (if p.Ext then 4 + 4 * be16 buf (12 + 4 * (byteAt buf 0 >>> 4) + 2) else 0))
      ∧ buf.length = 12 + 4 * p.CSRC.length
          + (if p.Ext then 4 + p.ExtData.length else 0) + p.Payload.length := by
  obtain ⟨hc, -, -, -, h3, -, -, -, -, -, h6, hn, he⟩ := handleRtpPacket_ok_inv buf p h
  have hlen : p.CSRC.length = byteAt buf 0 >>> 4 := by simp [h6]
  refine ⟨h3, ?_, ?_⟩
  · cases hx : p.Ext
    · obtain ⟨-, -, e3⟩ := hn hx
      simpa using e3
    · obtain ⟨-, -, -, e3⟩ := he hx
      simpa [Nat.add_assoc] using e3
  · cases hx : p.Ext
    · obtain ⟨-, -, e3⟩ := hn hx
      rw [e3, List.length_drop, hlen]
      simp
      omega
    · obtain ⟨hl, -, e2, e3⟩ := he hx
      rw [e3, e2, List.length_drop, List.length_take, List.length_drop, hlen]
      simp
      omega

/-- Witness of C6 on `sampleBuf`: the payload is its last two bytes. -/
theorem handleRtpPacket_payload_witness :
    handleRtpPacket sampleBuf = .ok samplePacket
      ∧ samplePacket.Payload = sampleBuf.drop 24
      ∧ samplePacket.Ext = (byteAt sampleBuf 0 &&& hasRtpExt != 0)
      ∧ samplePacket.Payload = sampleBuf.drop (12 + 4 * (byteAt sampleBuf 0 >>> 4)
          + (if samplePacket.Ext then
              4 + 4 * be16 sampleBuf (12 + 4 * (byteAt sampleBuf 0 >>> 4) + 2) else 0))
      ∧ sampleBuf.length = 12 + 4 * samplePacket.CSRC.length
          + (if samplePacket.Ext then 4 + samplePacket.ExtData.length else 0)
          + samplePacket.Payload.length :=
  ⟨by decide, by decide, handleRtpPacket_payload sampleBuf samplePacket (by decide)⟩

/-- C7: every packet produced by a successful decode has `Version = 2`; and a
buffer holding the 12-byte fixed header whose `buf[0] & 0x03` differs from 2
fails with the unsupported-version panic and publishes no packet, whatever its
other bytes. -/
theorem handleRtpPacket_version (buf : List Byte) :
    (∀ p, handleRtpPacket buf = .ok p → p.Version = 2)
      ∧ (12 ≤ buf.length → byteAt buf 0 &&& 0x03 ≠ 2 →
          handleRtpPacket buf = .error .unsupportedVersion
            ∧ ∀ s, handleRtp s buf = .panicked .unsupportedVersion) := by
  constructor
  · intro p h
    obtain ⟨-, h0, h1, -⟩ := handleRtpPacket_ok_inv buf p h
    rw [h1, h0]
    rfl
  · intro h12 hv
    have hv2 : byteAt buf 0 &&& 0x03 ≠ RTPVERSION := hv
    have h : handleRtpPacket buf = .error .unsupportedVersion := by
      rw [handleRtpPacket_eq]
      unfold decodeClosed
      simp only
      rw [if_neg (by omega), if_pos hv2]
    exact ⟨h, fun s => handleRtp_of_error s buf _ h⟩

/-- Witness of C7: `sampleBuf` decodes to a version-2 packet, `badVersionBuf`
(version bits 1) is rejected. -/
theorem handleRtpPacket_version_witness :
    (handleRtpPacket sampleBuf = .ok samplePacket ∧ samplePacket.Version = 2)
      ∧ (12 ≤ badVersionBuf.length ∧ byteAt badVersionBuf 0 &&& 0x03 ≠ 2
          ∧ handleRtpPacket badVersionBuf = .error .unsupportedVersion
          ∧ ∀ s, handleRtp s badVersionBuf = .panicked .unsupportedVersion) :=
  ⟨⟨by decide, (handleRtpPacket_version sampleBuf).1 samplePacket (by decide)⟩,
    by decide, by decide, (handleRtpPacket_version badVersionBuf).2 (by decide) (by decide)⟩

/-- C8, as stated, fails: on the 11-byte `shortBuf` the decoder evaluates
`buf[0]`, `buf[1]`, `buf[2:4]`, `buf[4:8]` and then `buf[8:12]`, an access beyond
the length of the buffer, and what ends the task is the run-time panic of that
access, not a failure reported in its place; on the empty buffer the very first
access, `buf[0]`, is the one that panics. -/
theorem handleRtp_shortBuf_access_out_of_range :
    shortBuf.length = 11
      ∧ handleRtpLog shortBuf
          = ([Access.index 0, Access.index 1, Access.slice 2 4, Access.slice 4 8,
              Access.slice 8 12], .error .outOfRange)
      ∧ (Access.slice 8 12).inRange shortBuf.length = false
      ∧ handleRtp New shortBuf = .panicked .outOfRange
      ∧ handleRtpLog [] = ([Access.index 0], .error .outOfRange)
      ∧ (Access.index 0).inRange ([] : List Byte).length = false
      ∧ handleRtp New [] = .panicked .outOfRange := by
  decide

/-- C8, amended: a buffer shorter than 12 bytes (the empty one included) makes
`handleRtp` panic with Go's run-time out-of-range error, raised by an access
among `buf[0]`, `buf[1]`, `buf[2:4]`, `buf[4:8]`, `buf[8:12]` that exceeds the
buffer (taking them in lexical order, the first that does: every access
evaluated before it lies within the buffer, none is evaluated after it); no
packet is produced or published. -/
theorem handleRtp_short_buffer_panics (buf : List Byte) (h : buf.length < 12) :
    handleRtpPacket buf = .error .outOfRange
      ∧ (∀ p, handleRtpPacket buf ≠ .ok p)
      ∧ (∀ s, handleRtp s buf = .panicked .outOfRange)
      ∧ ∃ pre a post, handleRtpLog buf = (pre ++ [a], .error .outOfRange)
          ∧ (∀ x ∈ pre, x.inRange buf.length = true) ∧ a.inRange buf.length = false
          ∧ pre ++ [a] ++ post
              = [Access.index 0, Access.index 1, Access.slice 2 4, Access.slice 4 8,
                  Access.slice 8 12] := by
  have he := handleRtpPacket_short buf h
  refine ⟨he, ?_, fun s => handleRtp_of_error s buf _ he, ?_⟩
  · intro p hp
    rw [he] at hp
    cases hp
  · obtain ⟨pre, a, e1, e2, e3⟩ := log_of_out_of_range buf he
    have hs := handleRtpLog_short buf h
    rw [e1] at hs
    have hl := congrArg Prod.fst hs
    simp only at hl
    have hpost : ∃ post, pre ++ [a] ++ post
        = [Access.index 0, Access.index 1, Access.slice 2 4, Access.slice 4 8,
            Access.slice 8 12] := by
      rw [hl]
      split_ifs
      · exact ⟨[Access.index 1, Access.slice 2 4, Access.slice 4 8, Access.slice 8 12], rfl⟩
      · exact ⟨[Access.slice 2 4, Access.slice 4 8, Access.slice 8 12], rfl⟩
      · exact ⟨[Access.slice 4 8, Access.slice 8 12], rfl⟩
      · exact ⟨[Access.slice 8 12], rfl⟩
      · exact ⟨[], rfl⟩
    obtain ⟨post, hpost⟩ := hpost
    exact ⟨pre, a, post, e1, e2, e3, hpost⟩

/-- Witness of C8 (amended) on the 11-byte `shortBuf` and on the empty buffer. -/
theorem handleRtp_short_buffer_panics_witness :
    shortBuf.length < 12
      ∧ (handleRtpPacket shortBuf = .error .outOfRange
        ∧ (∀ p, handleRtpPacket shortBuf ≠ .ok p)
        ∧ (∀ s, handleRtp s shortBuf = .panicked .outOfRange)
        ∧ ∃ pre a post, handleRtpLog shortBuf = (pre ++ [a], .error .outOfRange)
            ∧ (∀ x ∈ pre, x.inRange shortBuf.length = true)
            ∧ a.inRange shortBuf.length = false
            ∧ pre ++ [a] ++ post
                = [Access.index 0, Access.index 1, Access.slice 2 4, Access.slice 4 8,
                    Access.slice 8 12])
      ∧ handleRtpPacket [] = .error .outOfRange :=
  ⟨by decide, handleRtp_short_buffer_panics shortBuf (by decide),
    (handleRtp_short_buffer_panics [] (by decide)).1⟩

/-- C9, as stated, fails: on `overrunBuf` (two extension words declared, five
bytes present) the decoder evaluates `buf[20:28]` on 25 bytes, the out-of-bounds
access itself, and the task ends in the run-time panic of that access; and on
`plainPayloadBuf`, whose extension flag is clear, the length condition
`len(buf) < 12 + 4*c + 4 + 4*L` holds for the `L` read at offset `12 + 4*c + 2`,
yet decoding succeeds. -/
theorem handleRtp_overrunBuf_access_out_of_range :
    overrunBuf.length = 25
      ∧ handleRtpLog overrunBuf
          = ([Access.index 0, Access.index 1, Access.slice 2 4, Access.slice 4 8,
              Access.slice 8 12, Access.slice 12 16, Access.slice 16 18, Access.slice 18 20,
              Access.slice 20 28], .error .outOfRange)
      ∧ (Access.slice 20 28).inRange overrunBuf.length = false
      ∧ handleRtp New overrunBuf = .panicked .outOfRange
      ∧ 12 ≤ plainPayloadBuf.length ∧ byteAt plainPayloadBuf 0 &&& 0x03 = 2
      ∧ byteAt plainPayloadBuf 0 &&& hasRtpExt = 0
      ∧ plainPayloadBuf.length < 12 + 4 * (byteAt plainPayloadBuf 0 >>> 4) + 4
          + 4 * be16 plainPayloadBuf (12 + 4 * (byteAt plainPayloadBuf 0 >>> 4) + 2)
      ∧ handleRtpPacket plainPayloadBuf = .ok plainPayloadPacket := by
  decide

/-- C9, amended: a buffer of at least 12 bytes with version bits 2 whose declared
lengths overrun it (the CSRC list does not fit, or the extension flag is set and
the 4-byte extension header does not fit, or the extension flag is set and the
`4*L` bytes of extension data do not fit) makes `handleRtp` panic with Go's
run-time out-of-range error: the fixed header is read in full, the panic is
raised by the first later access that exceeds the buffer, every access
evaluated before it lies within the buffer, none is evaluated after it, and no
packet is produced or published. -/
theorem handleRtp_overrun_panics (buf : List Byte) (h12 : 12 ≤ buf.length)
    (hv : byteAt buf 0 &&& 0x03 = 2)
    (ho : buf.length < 12 + 4 * (byteAt buf 0 >>> 4)
      ∨ (byteAt buf 0 &&& hasRtpExt ≠ 0 ∧ buf.length < 12 + 4 * (byteAt buf 0 >>> 4) + 4)
      ∨ (byteAt buf 0 &&& hasRtpExt ≠ 0 ∧ buf.length < 12 + 4 * (byteAt buf 0 >>> 4) + 4
          + 4 * be16 buf (12 + 4 * (byteAt buf 0 >>> 4) + 2))) :
    handleRtpPacket buf = .error .outOfRange
      ∧ (∀ p, handleRtpPacket buf ≠ .ok p)
      ∧ (∀ s, handleRtp s buf = .panicked .outOfRange)
      ∧ ∃ mid a, handleRtpLog buf
            = ([Access.index 0, Access.index 1, Access.slice 2 4, Access.slice 4 8,
                Access.slice 8 12] ++ mid ++ [a], .error .outOfRange)
          ∧ (∀ x ∈ mid, x.inRange buf.length = true) ∧ a.inRange buf.length = false := by
  have hv2 : ¬ (byteAt buf 0 &&& 0x03 ≠ RTPVERSION) := not_not_intro hv
  have he : handleRtpPacket buf = .error .outOfRange := by
    rw [handleRtpPacket_eq]
    unfold decodeClosed
    simp only
    rw [if_neg (by omega), if_neg hv2]
    by_cases hc : buf.length < 12 + 4 * (byteAt buf 0 >>> 4)
    · rw [if_pos hc]
    · rw [if_neg hc]
      have hx : byteAt buf 0 &&& hasRtpExt ≠ 0 := by
        rcases ho with h1 | h2 | h3
        · exact absurd h1 hc
        · exact h2.1
        · exact h3.1
      rw [if_neg (by simpa using hx)]
      by_cases h4 : buf.length < 12 + 4 * (byteAt buf 0 >>> 4) + 4
      · rw [if_pos h4]
      · rw [if_neg h4]
        have hl : buf.length < 12 + 4 * (byteAt buf 0 >>> 4) + 4
            + 4 * be16 buf (12 + 4 * (byteAt buf 0 >>> 4) + 2) := by
          rcases ho with h1 | h2 | h3
          · exact absurd h1 hc
          · exact absurd h2.2 h4
          · exact h3.2
        rw [if_pos hl]
  refine ⟨he, ?_, fun s => handleRtp_of_error s buf _ he, log_after_fixed buf h12 he⟩
  intro p hp
  rw [he] at hp
  cases hp

/-- Witness of C9 (amended) on `overrunBuf`. -/
theorem handleRtp_overrun_panics_witness :
    12 ≤ overrunBuf.length ∧ byteAt overrunBuf 0 &&& 0x03 = 2
      ∧ (byteAt overrunBuf 0 &&& hasRtpExt ≠ 0
          ∧ overrunBuf.length < 12 + 4 * (byteAt overrunBuf 0 >>> 4) + 4
            + 4 * be16 overrunBuf (12 + 4 * (byteAt overrunBuf 0 >>> 4) + 2))
      ∧ handleRtpPacket overrunBuf = .error .outOfRange
      ∧ (∀ p, handleRtpPacket overrunBuf ≠ .ok p)
      ∧ (∀ s, handleRtp s overrunBuf = .panicked .outOfRange)
      ∧ ∃ mid a, handleRtpLog overrunBuf
            = ([Access.index 0, Access.index 1, Access.slice 2 4, Access.slice 4 8,
                Access.slice 8 12] ++ mid ++ [a], .error .outOfRange)
          ∧ (∀ x ∈ mid, x.inRange overrunBuf.length = true)
          ∧ a.inRange overrunBuf.length = false :=
  ⟨by decide, by decide, by decide,
    handleRtp_overrun_panics overrunBuf (by decide) (by decide) (Or.inr (Or.inr (by decide)))⟩

/-- C10, as the specification lists the invariants, fails: `strayHeaderPacket`
(extension flag clear, `ExtHeader = 7`) satisfies every listed invariant, yet
decoding its encoding does not give it back, and no buffer at all decodes to
it, because the decoder leaves `ExtHeader` at zero when the flag is clear. -/
theorem roundtrip_listed_invariants_fails :
    ListedInvariants strayHeaderPacket
      ∧ handleRtpPacket (encode strayHeaderPacket) ≠ .ok strayHeaderPacket
      ∧ ∀ buf, handleRtpPacket buf ≠ .ok strayHeaderPacket := by
  refine ⟨by decide, by decide, ?_⟩
  intro buf h
  obtain ⟨-, -, -, -, -, -, -, -, -, -, -, hn, -⟩ := handleRtpPacket_ok_inv buf _ h
  have := (hn rfl).1
  revert this
  decide

/-- C10, amended: a packet that satisfies the listed invariants (version 2, at
most 15 CSRC entries each below `2^32`, `SequenceNumber < 2^16`, `Timestamp`
and `SyncSource` below `2^32`, `PayloadType < 128`, extension data a multiple of
4 bytes and empty when `Ext` is false) and, in addition, has `ExtHeader < 2^16`,
`ExtHeader = 0` when `Ext` is false, and at most `4 * 65535` bytes of extension
data, is reproduced exactly by encoding it in the wire layout and decoding the
result. -/
theorem handleRtpPacket_encode (p : RtpPacket) (hl : ListedInvariants p)
    (hh : p.ExtHeader < 2 ^ 16) (hh0 : p.Ext = false → p.ExtHeader = 0)
    (hlen : p.ExtData.length ≤ 4 * 65535) :
    handleRtpPacket (encode p) = .ok p := by
  obtain ⟨hv, hc, hcs, hseq, hts, hss, hpt, hdiv, hne⟩ := hl
  obtain ⟨b1, b2, b3, b4⟩ := encode_byte0 p hv hc
  obtain ⟨c1, c2⟩ := encode_byte1 p hpt
  obtain ⟨f1, f2, f3⟩ := encode_fixed p hseq hts hss
  have hcsrc := encode_csrc p hcs
  have hd := (drop_encode p).2
  have hL := length_encode p
  cases hx : p.Ext
  · have he : extBytes p = [] := by simp [extBytes, hx]
    rw [he] at hd hL
    obtain ⟨q, hq⟩ := handleRtpPacket_ok_noExt (encode p)
      (by rw [b4, hL]; simp) b1 (by rw [b3, hx])
    obtain ⟨-, -, i1, i2, i3, i4, i5, i6, i7, i8, i9, i10, -⟩ :=
      handleRtpPacket_ok_inv (encode p) q hq
    obtain ⟨j1, j2, j3⟩ := i10 (by rw [i3, b3, hx])
    rw [hq]
    congr 1
    apply packet_ext
    · rw [i1, b1, hv]
    · rw [i2, b2]
    · rw [i3, b3]
    · rw [i4, c1]
    · rw [i5, c2]
    · rw [i6, f1]
    · rw [i7, f2]
    · rw [i8, f3]
    · rw [i9, b4, hcsrc]
    · rw [j1, hh0 hx]
    · rw [j2, hne hx]
    · rw [j3, b4, hd]; rfl
  · obtain ⟨e1, e2, e3⟩ := encode_ext p hx hdiv hh hlen
    have he : (extBytes p).length = 4 + p.ExtData.length := by
      simp [extBytes, hx, putBe16]; omega
    obtain ⟨q, hq⟩ := handleRtpPacket_ok_ext (encode p)
      (by rw [b4, e2, hL, he]; omega) b1 (by rw [b3, hx])
    obtain ⟨-, -, i1, i2, i3, i4, i5, i6, i7, i8, i9, -, i11⟩ :=
      handleRtpPacket_ok_inv (encode p) q hq
    obtain ⟨-, j1, j2, j3⟩ := i11 (by rw [i3, b3, hx])
    rw [hq]
    congr 1
    apply packet_ext
    · rw [i1, b1, hv]
    · rw [i2, b2]
    · rw [i3, b3]
    · rw [i4, c1]
    · rw [i5, c2]
    · rw [i6, f1]
    · rw [i7, f2]
    · rw [i8, f3]
    · rw [i9, b4, hcsrc]
    · rw [j1, b4, e1]
    · rw [j2, b4, e2, e3, List.take_left]
    · rw [j3, b4, e2]
      rw [← List.drop_drop, e3, List.drop_left]

/-- Witness of C10 (amended) on `samplePacket`, and on `samplePacketCsrc`, which
has no extension. -/
theorem handleRtpPacket_encode_witness :
    (ListedInvariants samplePacket ∧ samplePacket.ExtHeader < 2 ^ 16
        ∧ samplePacket.ExtData.length ≤ 4 * 65535
        ∧ handleRtpPacket (encode samplePacket) = .ok samplePacket)
      ∧ (ListedInvariants samplePacketCsrc ∧ samplePacketCsrc.Ext = false
        ∧ samplePacketCsrc.ExtHeader = 0
        ∧ handleRtpPacket (encode samplePacketCsrc) = .ok samplePacketCsrc) :=
  ⟨⟨by decide, by decide, by decide,
      handleRtpPacket_encode samplePacket (by decide) (by decide) (by decide) (by decide)⟩,
    by decide, by decide, by decide,
    handleRtpPacket_encode samplePacketCsrc (by decide) (by decide) (by decide) (by decide)⟩

/-! ## The read loops and the schedules -/

theorem exec_panic (as : List Action) (y : Sys) (e : Failure) (h : y.panic = some e) :
    exec y as = y := by
  cases as with
  | nil => rfl
  | cons a rest => simp only [exec, h]

theorem exec_cons (y : Sys) (a : Action) (rest : List Action) (h : y.panic = none) :
    exec y (a :: rest) = exec (step y a) rest := by
  simp only [exec, h]

theorem exec_append (pre rest : List Action) :
    ∀ y : Sys, exec y (pre ++ rest) = exec (exec y pre) rest := by
  induction pre with
  | nil => intro y; rfl
  | cons a pre ih =>
    intro y
    cases hp : y.panic with
    | some e => rw [exec_panic _ y e hp, exec_panic _ y e hp, exec_panic _ y e hp]
    | none => rw [List.cons_append, exec_cons y a _ hp, exec_cons y a _ hp, ih]

theorem handleRtp_of_ok (s : Session) (buf : List Byte) (p : RtpPacket)
    (h : handleRtpPacket buf = .ok p) :
    handleRtp s buf
      = if s.rtpChan.length < chanCap
          then .done { rtpChan := s.rtpChan ++ [p], rtcpChan := s.rtcpChan }
          else .blocked p := by
  simp only [handleRtp, h]

theorem step_rtp_error (y : Sys) (buf : List Byte) (e : Failure)
    (h : handleRtpPacket buf = .error e) :
    step y (Action.rtp buf) = { y with panic := some e } := by
  simp only [step, handleRtp_of_error y.chans buf e h]

theorem exec_rtp_error (y : Sys) (buf : List Byte) (e : Failure) (rest : List Action)
    (hy : y.panic = none) (h : handleRtpPacket buf = .error e) :
    exec y (Action.rtp buf :: rest) = { y with panic := some e } := by
  rw [exec_cons y _ _ hy, step_rtp_error y buf e h]
  exact exec_panic rest _ e rfl

theorem step_rtp_ok (y : Sys) (buf : List Byte) (p : RtpPacket) (hi : y.Inv)
    (h : handleRtpPacket buf = .ok p) :
    (step y (Action.rtp buf)).Inv
      ∧ (step y (Action.rtp buf)).panic = y.panic
      ∧ (step y (Action.rtp buf)).received ++ (step y (Action.rtp buf)).chans.rtpChan
          ++ (step y (Action.rtp buf)).sendq
        = y.received ++ y.chans.rtpChan ++ y.sendq ++ [p] := by
  obtain ⟨h1, h2, h3, h4⟩ := hi
  by_cases hlt : y.chans.rtpChan.length < chanCap
  · have hs : y.sendq = [] := by
      by_contra hne
      have := h3 hne
      omega
    have hd : handleRtp y.chans buf
        = .done { rtpChan := y.chans.rtpChan ++ [p], rtcpChan := y.chans.rtcpChan } := by
      rw [handleRtp_of_ok y.chans buf p h, if_pos hlt]
    cases hr : y.recvq with
    | zero =>
      have e : step y (Action.rtp buf)
          = { y with chans := { rtpChan := y.chans.rtpChan ++ [p],
                                rtcpChan := y.chans.rtcpChan } } := by
        simp only [step, hd, hr]
      rw [e]
      refine ⟨⟨?_, h2, ?_, ?_⟩, rfl, ?_⟩
      · simp only [List.length_append, List.length_singleton]; omega
      · intro hne; exact absurd hs hne
      · intro hpos; simp only [hr] at hpos; omega
      · simp [hs]
    | succ n =>
      have hemp : y.chans.rtpChan = [] := h4 (by omega)
      have e : step y (Action.rtp buf)
          = { y with chans := { rtpChan := [], rtcpChan := y.chans.rtcpChan }, recvq := n,
                     received := y.received ++ [p] } := by
        simp only [step, hd, hr, hemp, List.nil_append]
      rw [e]
      refine ⟨⟨?_, h2, ?_, ?_⟩, rfl, ?_⟩
      · simp
      · intro hne; exact absurd hs hne
      · intro _; rfl
      · simp [hs, hemp]
  · have hb : handleRtp y.chans buf = .blocked p := by
      rw [handleRtp_of_ok y.chans buf p h, if_neg hlt]
    have e : step y (Action.rtp buf) = { y with sendq := y.sendq ++ [p] } := by
      simp only [step, hb]
    rw [e]
    refine ⟨⟨h1, h2, ?_, ?_⟩, rfl, ?_⟩
    · intro _
      show y.chans.rtpChan.length = chanCap
      omega
    · intro hpos
      have := h4 hpos
      rw [this] at hlt
      exact absurd (by decide : ([] : List RtpPacket).length < chanCap) hlt
    · simp

theorem step_other (y : Sys) (a : Action) (hi : y.Inv) (ha : ∀ buf, a ≠ Action.rtp buf) :
    (step y a).Inv ∧ (step y a).panic = y.panic
      ∧ (step y a).received ++ (step y a).chans.rtpChan ++ (step y a).sendq
        = y.received ++ y.chans.rtpChan ++ y.sendq := by
  obtain ⟨h1, h2, h3, h4⟩ := hi
  cases a with
  | rtp cpy => exact absurd rfl (ha cpy)
  | rtcp cpy =>
    have e : step y (Action.rtcp cpy) = y := by simp only [step, handleRtcp]
    rw [e]
    exact ⟨⟨h1, h2, h3, h4⟩, rfl, rfl⟩
  | recvRtp =>
    cases hc : y.chans.rtpChan with
    | nil =>
      have e : step y Action.recvRtp = { y with recvq := y.recvq + 1 } := by
        simp only [step, hc]
      rw [e]
      refine ⟨⟨h1, h2, h3, ?_⟩, rfl, ?_⟩
      · intro _; exact hc
      · simp [hc]
    | cons p rest =>
      have hlen : y.chans.rtpChan.length = rest.length + 1 := by rw [hc]; rfl
      have hr0 : y.recvq = 0 := by
        by_contra hne
        have := h4 (by omega)
        rw [this] at hc
        cases hc
      cases hq : y.sendq with
      | nil =>
        have e : step y Action.recvRtp
            = { y with chans := { y.chans with rtpChan := rest },
                       received := y.received ++ [p] } := by
          simp only [step, hc, hq]
        rw [e]
        refine ⟨⟨?_, h2, ?_, ?_⟩, rfl, ?_⟩
        · show rest.length ≤ chanCap
          omega
        · intro hne; exact absurd hq hne
        · intro hpos; rw [hr0] at hpos; omega
        · simp [hq]
      | cons q qs =>
        have hfull := h3 (by rw [hq]; simp)
        have e : step y Action.recvRtp
            = { y with chans := { y.chans with rtpChan := rest ++ [q] }, sendq := qs,
                       received := y.received ++ [p] } := by
          simp only [step, hc, hq]
        rw [e]
        refine ⟨⟨?_, h2, ?_, ?_⟩, rfl, ?_⟩
        · show (rest ++ [q]).length ≤ chanCap
          simp only [List.length_append, List.length_singleton]; omega
        · intro _
          show (rest ++ [q]).length = chanCap
          simp only [List.length_append, List.length_singleton]; omega
        · intro hpos; rw [hr0] at hpos; omega
        · simp
  | recvRtcp =>
    cases hc : y.chans.rtcpChan with
    | nil =>
      have e : step y Action.recvRtcp = { y with rtcpRecvq := y.rtcpRecvq + 1 } := by
        simp only [step, hc]
      rw [e]
      exact ⟨⟨h1, h2, h3, h4⟩, rfl, rfl⟩
    | cons b rest =>
      have e : step y Action.recvRtcp
          = { y with chans := { y.chans with rtcpChan := rest } } := by
        simp only [step, hc]
      rw [e]
      refine ⟨⟨h1, ?_, h3, h4⟩, rfl, rfl⟩
      show rest.length ≤ chanCap
      rw [hc] at h2
      simp only [List.length_cons] at h2
      omega

theorem exec_inv (as : List Action) :
    ∀ y : Sys, y.Inv → y.panic = none →
      (exec y as).Inv
        ∧ (exec y as).received ++ (exec y as).chans.rtpChan ++ (exec y as).sendq
          = y.received ++ y.chans.rtpChan ++ y.sendq ++ packetsOf as := by
  induction as with
  | nil => intro y hi _; exact ⟨hi, by simp [exec, packetsOf]⟩
  | cons a rest ih =>
    intro y hi hp
    rw [exec_cons y a rest hp]
    by_cases ha : ∃ buf, a = Action.rtp buf
    · obtain ⟨buf, rfl⟩ := ha
      cases hd : handleRtpPacket buf with
      | error e =>
        rw [step_rtp_error y buf e hd, exec_panic rest _ e rfl]
        obtain ⟨h1, h2, h3, h4⟩ := hi
        exact ⟨⟨h1, h2, h3, h4⟩, by simp [packetsOf, hd]⟩
      | ok p =>
        obtain ⟨k1, k2, k3⟩ := step_rtp_ok y buf p hi hd
        obtain ⟨j1, j2⟩ := ih _ k1 (k2.trans hp)
        refine ⟨j1, ?_⟩
        rw [j2, k3]
        simp [packetsOf, hd]
    · have ha2 : ∀ buf, a ≠ Action.rtp buf := fun buf h => ha ⟨buf, h⟩
      obtain ⟨k1, k2, k3⟩ := step_other y a hi ha2
      obtain ⟨j1, j2⟩ := ih _ k1 (k2.trans hp)
      refine ⟨j1, ?_⟩
      rw [j2, k3]
      cases a with
      | rtp cpy => exact absurd rfl (ha2 cpy)
      | rtcp cpy => rfl
      | recvRtp => rfl
      | recvRtcp => rfl

theorem start_inv (s : Session) (h1 : s.rtpChan.length ≤ chanCap)
    (h2 : s.rtcpChan.length ≤ chanCap) : (Sys.start s).Inv :=
  ⟨h1, h2, fun h => absurd rfl h, fun h => absurd h (Nat.lt_irrefl 0)⟩

theorem HandleRtpConn_error (pre : List ReadResult) (r : ReadResult) (post : List ReadResult)
    (e : Error) (hpre : ∀ x ∈ pre, x.err = none) (hr : r.err = some e) :
    HandleRtpConn (pre ++ r :: post) = (pre.map (fun x => Action.rtp x.bytes), .panicked e) := by
  induction pre with
  | nil => simp [HandleRtpConn, hr]
  | cons x pre ih =>
    have hx : x.err = none := hpre x (by simp)
    have := ih (fun y hy => hpre y (by simp [hy]))
    simp [HandleRtpConn, hx, this]

theorem HandleRtcpConn_error (pre : List ReadResult) (r : ReadResult) (post : List ReadResult)
    (e : Error) (hpre : ∀ x ∈ pre, x.err = none) (hr : r.err = some e) :
    HandleRtcpConn (pre ++ r :: post) = (pre.map (fun x => Action.rtcp x.bytes), .panicked e) := by
  induction pre with
  | nil => simp [HandleRtcpConn, hr]
  | cons x pre ih =>
    have hx : x.err = none := hpre x (by simp)
    have := ih (fun y hy => hpre y (by simp [hy]))
    simp [HandleRtcpConn, hx, this]

theorem HandleRtpConn_reading (reads : List ReadResult) (h : ∀ x ∈ reads, x.err = none) :
    HandleRtpConn reads = (reads.map (fun x => Action.rtp x.bytes), .reading) := by
  induction reads with
  | nil => rfl
  | cons x rest ih =>
    have hx : x.err = none := h x (by simp)
    have := ih (fun y hy => h y (by simp [hy]))
    simp [HandleRtpConn, hx, this]

theorem HandleRtcpConn_reading (reads : List ReadResult) (h : ∀ x ∈ reads, x.err = none) :
    HandleRtcpConn reads = (reads.map (fun x => Action.rtcp x.bytes), .reading) := by
  induction reads with
  | nil => rfl
  | cons x rest ih =>
    have hx : x.err = none := h x (by simp)
    have := ih (fun y hy => h y (by simp [hy]))
    simp [HandleRtcpConn, hx, this]

/-! ## The buffer recovered from its packet -/

theorem byteAt_lt (buf : List Byte) (k : Nat) : byteAt buf k < 256 :=
  (buf.getD k 0).isLt

theorem be16_lt (buf : List Byte) (k : Nat) : be16 buf k < 2 ^ 16 := by
  have h1 := byteAt_lt buf k
  have h2 := byteAt_lt buf (k + 1)
  simp only [be16]
  omega

theorem be32_lt (buf : List Byte) (k : Nat) : be32 buf k < 2 ^ 32 := by
  have h1 := byteAt_lt buf k
  have h2 := byteAt_lt buf (k + 1)
  have h3 := byteAt_lt buf (k + 2)
  have h4 := byteAt_lt buf (k + 3)
  simp only [be32]
  omega

set_option maxRecDepth 100000 in
theorem byteOf_byte0 : ∀ b : Byte,
    byteOf ((b.val &&& 0x03) % 4 + (if (b.val &&& hasRtpPadding != 0) = true then 4 else 0)
      + (if (b.val &&& hasRtpExt != 0) = true then 8 else 0) + 16 * ((b.val >>> 4) % 16)) = b := by
  decide

set_option maxRecDepth 100000 in
theorem byteOf_byte1 : ∀ b : Byte,
    byteOf ((if (b.val &&& 1 != 0) = true then 1 else 0) + 2 * ((b.val >>> 1) % 128)) = b := by
  decide

theorem putBe16_be16 (buf : List Byte) (k : Nat) :
    putBe16 (be16 buf k) = [buf.getD k 0, buf.getD (k + 1) 0] := by
  have h1 := (buf.getD k 0).isLt
  have h2 := (buf.getD (k + 1) 0).isLt
  simp only [putBe16, be16, byteAt, byteOf, List.cons.injEq, and_true]
  constructor <;> (apply Fin.ext; simp only; omega)

theorem putBe32_be32 (buf : List Byte) (k : Nat) :
    putBe32 (be32 buf k)
      = [buf.getD k 0, buf.getD (k + 1) 0, buf.getD (k + 2) 0, buf.getD (k + 3) 0] := by
  have h1 := (buf.getD k 0).isLt
  have h2 := (buf.getD (k + 1) 0).isLt
  have h3 := (buf.getD (k + 2) 0).isLt
  have h4 := (buf.getD (k + 3) 0).isLt
  simp only [putBe32, be32, byteAt, byteOf, List.cons.injEq, and_true]
  refine ⟨?_, ?_, ?_, ?_⟩ <;> (apply Fin.ext; simp only; omega)

theorem putBe16_append_drop (buf : List Byte) (k : Nat) (h : k + 2 ≤ buf.length) :
    putBe16 (be16 buf k) ++ buf.drop (k + 2) = buf.drop k := by
  rw [putBe16_be16, drop_eq_getD_cons buf k (by omega), drop_eq_getD_cons buf (k + 1) (by omega)]
  rfl

theorem putBe32_append_drop (buf : List Byte) (k : Nat) (h : k + 4 ≤ buf.length) :
    putBe32 (be32 buf k) ++ buf.drop (k + 4) = buf.drop k := by
  rw [putBe32_be32, drop_eq_getD_cons buf k (by omega), drop_eq_getD_cons buf (k + 1) (by omega),
    drop_eq_getD_cons buf (k + 2) (by omega), drop_eq_getD_cons buf (k + 3) (by omega)]
  rfl

theorem putCsrc_append_drop (buf : List Byte) (n : Nat) :
    ∀ k, k + 4 * n ≤ buf.length →
      putCsrc ((List.range n).map (fun j => be32 buf (k + 4 * j))) ++ buf.drop (k + 4 * n)
        = buf.drop k := by
  induction n with
  | zero => intro k _; simp [putCsrc]
  | succ n ih =>
    intro k hk
    rw [List.range_succ_eq_map]
    simp only [List.map_cons, List.map_map, putCsrc, Nat.mul_zero, Nat.add_zero,
      List.append_assoc]
    have e : (fun j => be32 buf (k + 4 * j)) ∘ Nat.succ = fun j => be32 buf (k + 4 + 4 * j) := by
      funext j
      simp only [Function.comp, Nat.succ_eq_add_one]
      congr 1
      omega
    have e2 : k + 4 * (n + 1) = k + 4 + 4 * n := by omega
    rw [e, e2, ih (k + 4) (by omega)]
    exact putBe32_append_drop buf k (by omega)

theorem fixedHeader_of_ok (buf : List Byte) (p : RtpPacket)
    (h : handleRtpPacket buf = .ok p) : fixedHeader p ++ buf.drop 12 = buf := by
  have hlen := handleRtpPacket_ok_length buf p h
  obtain ⟨-, -, i1, i2, i3, i4, i5, i6, i7, i8, i9, -, -⟩ := handleRtpPacket_ok_inv buf p h
  have hc : p.CSRC.length = byteAt buf 0 >>> 4 := by simp [i9]
  have h0 := byteOf_byte0 (buf.getD 0 0)
  have h1 := byteOf_byte1 (buf.getD 1 0)
  simp only [← byteAt_eq] at h0 h1
  unfold fixedHeader
  rw [i1, i2, i3, i4, i5, i6, i7, i8, hc, h0, h1]
  simp only [List.append_assoc]
  rw [putBe32_append_drop buf 8 (by omega), putBe32_append_drop buf 4 (by omega),
    putBe16_append_drop buf 2 (by omega)]
  have e := drop_eq_getD_cons buf 0 (by omega)
  rw [drop_eq_getD_cons buf 1 (by omega)] at e
  simpa using e.symm

theorem encode_of_ok (buf : List Byte) (p : RtpPacket)
    (h : handleRtpPacket buf = .ok p) : encode p = buf := by
  obtain ⟨hc, -, -, -, -, -, -, -, -, -, i9, i10, i11⟩ := handleRtpPacket_ok_inv buf p h
  have hfix := fixedHeader_of_ok buf p h
  have htail : putCsrc p.CSRC ++ (extBytes p ++ p.Payload) = buf.drop 12 := by
    have hext : extBytes p ++ p.Payload = buf.drop (12 + 4 * (byteAt buf 0 >>> 4)) := by
      cases hx : p.Ext
      · obtain ⟨-, -, j3⟩ := i10 hx
        simp [extBytes, hx, j3]
      · obtain ⟨hl, j1, j2, j3⟩ := i11 hx
        have hdl : p.ExtData.length
            = 4 * be16 buf (12 + 4 * (byteAt buf 0 >>> 4) + 2) := by
          rw [j2, List.length_take, List.length_drop]
          omega
        have hdiv : p.ExtData.length / 4 = be16 buf (12 + 4 * (byteAt buf 0 >>> 4) + 2) := by
          omega
        have hdp : p.ExtData ++ p.Payload = buf.drop (12 + 4 * (byteAt buf 0 >>> 4) + 4) := by
          rw [j2, j3, ← List.drop_drop (4 * be16 buf (12 + 4 * (byteAt buf 0 >>> 4) + 2))
            (12 + 4 * (byteAt buf 0 >>> 4) + 4) buf, List.take_append_drop]
        simp only [extBytes, hx, if_true, List.append_assoc]
        rw [hdp, hdiv, j1]
        have e4 : 12 + 4 * (byteAt buf 0 >>> 4) + 4 = 12 + 4 * (byteAt buf 0 >>> 4) + 2 + 2 := by
          omega
        rw [e4, putBe16_append_drop buf _ (by omega), putBe16_append_drop buf _ (by omega)]
    rw [hext, i9]
    exact putCsrc_append_drop buf _ 12 hc
  unfold encode
  rw [htail, hfix]

/-! ## Properties of the tasks, the read loops and the channels -/

/-- C11, as stated, fails, and not only through the place where the version is
read: with byte 0 = `0x88` (and `DE AD BE EF` as extension data) `handleRtp`
panics with "Unsupported version" and produces no packet; moreover both nibbles
of `0x88` are 8, so the byte announces eight CSRC entries, which the 20-byte
buffer cannot hold: no byte 0 with that CSRC count decodes on this buffer,
whatever its other bits. -/
theorem handleRtp_extScenario_0x88_unsupported :
    handleRtpPacket (extScenarioBuf 0x88 0xDE 0xAD 0xBE 0xEF) = .error .unsupportedVersion
      ∧ (¬ ∃ p, handleRtpPacket (extScenarioBuf 0x88 0xDE 0xAD 0xBE 0xEF) = .ok p
          ∧ p.Ext = true ∧ p.ExtHeader = 1 ∧ p.ExtData = [0xDE, 0xAD, 0xBE, 0xEF])
      ∧ (∀ s, handleRtp s (extScenarioBuf 0x88 0xDE 0xAD 0xBE 0xEF)
          = .panicked .unsupportedVersion)
      ∧ byteAt (extScenarioBuf 0x88 0xDE 0xAD 0xBE 0xEF) 0 >>> 4 = 8
      ∧ byteAt (extScenarioBuf 0x88 0xDE 0xAD 0xBE 0xEF) 0 &&& 0x0F = 8
      ∧ (extScenarioBuf 0x88 0xDE 0xAD 0xBE 0xEF).length < 12 + 4 * 8
      ∧ ∀ b0 : Byte, b0.val >>> 4 = 8 →
          ∀ p, handleRtpPacket (extScenarioBuf b0 0xDE 0xAD 0xBE 0xEF) ≠ .ok p := by
  have h : handleRtpPacket (extScenarioBuf 0x88 0xDE 0xAD 0xBE 0xEF)
      = .error .unsupportedVersion := by decide
  refine ⟨h, ?_, fun s => handleRtp_of_error s _ _ h, by decide, by decide, by decide, ?_⟩
  · rintro ⟨p, hp, -⟩
    rw [h] at hp
    cases hp
  · intro b0 hb p hp
    obtain ⟨hc, -⟩ := handleRtpPacket_ok_inv _ p hp
    have e0 : byteAt (extScenarioBuf b0 0xDE 0xAD 0xBE 0xEF) 0 = b0.val := rfl
    have el : (extScenarioBuf b0 0xDE 0xAD 0xBE 0xEF).length = 20 := rfl
    rw [e0, hb, el] at hc
    omega

/-- C11, amended: for a byte 0 that the decoder accepts with the extension flag
set and no CSRC entry (some buffer beginning with that byte decodes to such a
packet), the buffer made of that byte, the remaining fixed-header bytes
`00 00 01 | 00 00 00 00 | 00 00 00 00`, extension identifier `00 01`, extension
length `00 01` and any four bytes of extension data decodes successfully with
`Ext = true`, `ExtHeader = 1` and `ExtData` exactly those four bytes, and the
packet is sent on the media channel.  Which bytes are accepted as version 2 is
left open. -/
theorem handleRtp_extScenario (b0 d0 d1 d2 d3 : Byte)
    (hb : ∃ rest q, handleRtpPacket (b0 :: rest) = .ok q ∧ q.Ext = true ∧ q.CSRC = []) :
    ∃ p, handleRtpPacket (extScenarioBuf b0 d0 d1 d2 d3) = .ok p
      ∧ p.Ext = true ∧ p.ExtHeader = 1 ∧ p.ExtData = [d0, d1, d2, d3]
      ∧ handleRtp New (extScenarioBuf b0 d0 d1 d2 d3)
          = .done { rtpChan := [p], rtcpChan := [] } := by
  obtain ⟨rest, q, hq, hqx, hqc⟩ := hb
  obtain ⟨-, hv, -, -, i3, -, -, -, -, -, i9, -, -⟩ := handleRtpPacket_ok_inv _ q hq
  have e0 : byteAt (b0 :: rest) 0 = b0.val := rfl
  rw [e0] at hv i3 i9
  have hx : (b0.val &&& hasRtpExt != 0) = true := by rw [← i3, hqx]
  have hc : b0.val >>> 4 = 0 := by
    have hlen := congrArg List.length i9
    rw [hqc] at hlen
    simpa using hlen.symm
  have f0 : byteAt (extScenarioBuf b0 d0 d1 d2 d3) 0 = b0.val := rfl
  have fl : (extScenarioBuf b0 d0 d1 d2 d3).length = 20 := rfl
  have h0 : ((0 : Byte) : Nat) = 0 := rfl
  have h1 : ((1 : Byte) : Nat) = 1 := rfl
  have f12 : be16 (extScenarioBuf b0 d0 d1 d2 d3) 12 = 1 := by
    simp [be16, byteAt, extScenarioBuf, h0, h1]
  have f14 : be16 (extScenarioBuf b0 d0 d1 d2 d3) 14 = 1 := by
    simp [be16, byteAt, extScenarioBuf, h0, h1]
  obtain ⟨p, hp⟩ := handleRtpPacket_ok_ext (extScenarioBuf b0 d0 d1 d2 d3)
    (by rw [f0, hc, f14, fl]) (by rw [f0]; exact hv) (by rw [f0]; exact hx)
  obtain ⟨-, -, -, -, j3, -, -, -, -, -, -, -, j11⟩ := handleRtpPacket_ok_inv _ p hp
  rw [f0] at j3
  have hpx : p.Ext = true := by rw [j3, hx]
  obtain ⟨-, k1, k2, -⟩ := j11 hpx
  rw [f0, hc] at k1 k2
  refine ⟨p, hp, hpx, by rw [k1]; exact f12, ?_, ?_⟩
  · rw [k2, f14]
    rfl
  · simp [handleRtp, hp, New, chanCap]

/-- Witness of C11 (amended) with byte 0 = `0x0A`, which the decoder accepts in
the same buffer with another extension data block. -/
theorem handleRtp_extScenario_witness :
    (∃ rest q, handleRtpPacket ((0x0A : Byte) :: rest) = .ok q ∧ q.Ext = true ∧ q.CSRC = [])
      ∧ handleRtpPacket (extScenarioBuf 0x0A 0xDE 0xAD 0xBE 0xEF)
          = .ok (extScenarioPacket 0xDE 0xAD 0xBE 0xEF)
      ∧ ∃ p, handleRtpPacket (extScenarioBuf 0x0A 0xDE 0xAD 0xBE 0xEF) = .ok p
          ∧ p.Ext = true ∧ p.ExtHeader = 1 ∧ p.ExtData = [0xDE, 0xAD, 0xBE, 0xEF]
          ∧ handleRtp New (extScenarioBuf 0x0A 0xDE 0xAD 0xBE 0xEF)
              = .done { rtpChan := [p], rtcpChan := [] } :=
  ⟨⟨(extScenarioBuf 0x0A 1 2 3 4).tail, extScenarioPacket 1 2 3 4, by decide, rfl, rfl⟩,
    by decide,
    handleRtp_extScenario 0x0A 0xDE 0xAD 0xBE 0xEF
      ⟨(extScenarioBuf 0x0A 1 2 3 4).tail, extScenarioPacket 1 2 3 4, by decide, rfl, rfl⟩⟩

/-- C12, as stated, fails: on the script whose only read returns the error
`"EOF"`, `HandleRtpConn` and `HandleRtcpConn` end by `panic(err)`, the abort the
claim excludes, having started no task. -/
theorem readLoop_error_panics_example :
    HandleRtpConn [{ bytes := [], err := some "EOF" }] = ([], .panicked "EOF")
      ∧ HandleRtcpConn [{ bytes := [], err := some "EOF" }] = ([], .panicked "EOF")
      ∧ (HandleRtpConn [{ bytes := [], err := some "EOF" }]).2 ≠ .reading := by
  decide

/-- C12, amended: when a read returns an error `e`, the read loop
(`HandleRtpConn`, `HandleRtcpConn`) stops by `panic(e)`: every chunk read before
it has been handed to its own dispatch task, in order, and neither the failing
read nor any later one is processed. -/
theorem readLoop_error_panics (pre : List ReadResult) (r : ReadResult)
    (post : List ReadResult) (e : Error) (hpre : ∀ x ∈ pre, x.err = none)
    (hr : r.err = some e) :
    HandleRtpConn (pre ++ r :: post) = (pre.map (fun x => Action.rtp x.bytes), .panicked e)
      ∧ HandleRtcpConn (pre ++ r :: post)
          = (pre.map (fun x => Action.rtcp x.bytes), .panicked e)
      ∧ HandleRtpConn pre = (pre.map (fun x => Action.rtp x.bytes), .reading)
      ∧ HandleRtcpConn pre = (pre.map (fun x => Action.rtcp x.bytes), .reading) :=
  ⟨HandleRtpConn_error pre r post e hpre hr, HandleRtcpConn_error pre r post e hpre hr,
    HandleRtpConn_reading pre hpre, HandleRtcpConn_reading pre hpre⟩

/-- Witness of C12 (amended): two chunks, then a failing read, then a read that
is never made. -/
theorem readLoop_error_panics_witness :
    HandleRtpConn ([⟨sampleBuf, none⟩, ⟨shortBuf, none⟩] ++ ⟨[1], some "reset"⟩ :: [⟨[2], none⟩])
        = ([Action.rtp sampleBuf, Action.rtp shortBuf], .panicked "reset")
      ∧ HandleRtcpConn
          ([⟨sampleBuf, none⟩, ⟨shortBuf, none⟩] ++ ⟨[1], some "reset"⟩ :: [⟨[2], none⟩])
        = ([Action.rtcp sampleBuf, Action.rtcp shortBuf], .panicked "reset")
      ∧ HandleRtpConn [⟨sampleBuf, none⟩, ⟨shortBuf, none⟩]
        = ([Action.rtp sampleBuf, Action.rtp shortBuf], .reading)
      ∧ HandleRtcpConn [⟨sampleBuf, none⟩, ⟨shortBuf, none⟩]
        = ([Action.rtcp sampleBuf, Action.rtcp shortBuf], .reading) :=
  readLoop_error_panics [⟨sampleBuf, none⟩, ⟨shortBuf, none⟩] ⟨[1], some "reset"⟩ [⟨[2], none⟩]
    "reset" (by decide) rfl

/-- C13, as stated, fails: the task for `badVersionBuf` (and the one for
`shortBuf`) ends in a panic, and in the schedule that runs it before the task
for the valid `sampleBuf`, that later chunk is never decoded, whereas alone it
is decoded and published. -/
theorem decode_failure_fatal_example :
    handleRtp New badVersionBuf = .panicked .unsupportedVersion
      ∧ run New [.rtp badVersionBuf, .rtp sampleBuf] = (New, some .unsupportedVersion)
      ∧ run New [.rtp shortBuf, .rtp sampleBuf] = (New, some .outOfRange)
      ∧ run New [.rtp sampleBuf] = ({ rtpChan := [samplePacket], rtcpChan := [] }, none) := by
  decide

/-- C13, amended: a decode-time failure `e` in `handleRtp` publishes nothing and
drops the offending buffer, but it leaves the task as a panic, which nothing
recovers: in every schedule that reaches the task without an earlier panic, the
channels stay as they were before the task and the rest of the schedule, later
chunks included, is not carried out. -/
theorem decode_failure_fatal (s : Session) (buf : List Byte) (e : Failure)
    (pre rest : List Action) (h : handleRtpPacket buf = .error e)
    (hpre : (run s pre).2 = none) :
    handleRtp s buf = .panicked e
      ∧ run s (Action.rtp buf :: rest) = (s, some e)
      ∧ run s (pre ++ Action.rtp buf :: rest) = ((run s pre).1, some e) := by
  refine ⟨handleRtp_of_error s buf e h, ?_, ?_⟩
  · simp only [run, exec_rtp_error (Sys.start s) buf e rest rfl h]
    rfl
  · simp only [run, exec_append, exec_rtp_error (exec (Sys.start s) pre) buf e rest hpre h]

/-- Witness of C13 (amended): `sampleBuf` is published, `overrunBuf` then panics,
`sampleBufCsrc` is never decoded. -/
theorem decode_failure_fatal_witness :
    handleRtpPacket overrunBuf = .error .outOfRange
      ∧ (run New [.rtp sampleBuf]).2 = none
      ∧ handleRtp New overrunBuf = .panicked .outOfRange
      ∧ run New (Action.rtp overrunBuf :: [.rtp sampleBufCsrc]) = (New, some .outOfRange)
      ∧ run New ([.rtp sampleBuf] ++ Action.rtp overrunBuf :: [.rtp sampleBufCsrc])
          = ((run New [.rtp sampleBuf]).1, some .outOfRange) :=
  ⟨by decide, by decide,
    decode_failure_fatal New overrunBuf .outOfRange [.rtp sampleBuf] [.rtp sampleBufCsrc]
      (by decide) (by decide)⟩

/-- C14: in every schedule of dispatch tasks and consumers, carried out from the
channels of `New` with the semantics of Go's buffered channels, neither channel
ever holds more than its capacity of 10 values; a task is parked only while the
media channel is full; and nothing is dropped or duplicated: the packets
consumers have received, those in the channel and those held by parked tasks
are, in this order, exactly the packets the schedule's tasks sent.  In
particular a task whose packet is ready while the media channel is full is
parked holding that packet, and the next receive hands the oldest value to the
consumer and lets the parked send complete, so that the channel is full again. -/
theorem exec_queue_bounded (as : List Action) :
    (exec (Sys.start New) as).chans.rtpChan.length ≤ 10
      ∧ (exec (Sys.start New) as).chans.rtcpChan.length ≤ 10
      ∧ ((exec (Sys.start New) as).sendq ≠ [] →
          (exec (Sys.start New) as).chans.rtpChan.length = 10)
      ∧ (exec (Sys.start New) as).received ++ (exec (Sys.start New) as).chans.rtpChan
          ++ (exec (Sys.start New) as).sendq = packetsOf as
      ∧ ∀ (s : Session) (buf : List Byte) (p : RtpPacket), s.rtpChan.length = 10 →
          handleRtpPacket buf = .ok p →
            handleRtp s buf = .blocked p
              ∧ exec (Sys.start s) [.rtp buf] = { Sys.start s with sendq := [p] }
              ∧ exec (Sys.start s) [.rtp buf, .recvRtp]
                  = { Sys.start s with
                      chans := { rtpChan := s.rtpChan.tail ++ [p], rtcpChan := s.rtcpChan }
                      received := s.rtpChan.take 1 }
              ∧ (exec (Sys.start s) [.rtp buf, .recvRtp]).chans.rtpChan.length = 10 := by
  obtain ⟨⟨h1, h2, h3, -⟩, h5⟩ :=
    exec_inv as (Sys.start New) (start_inv New (by decide) (by decide)) rfl
  refine ⟨h1, h2, h3, by simpa [Sys.start, New] using h5, ?_⟩
  intro s buf p hfull hp
  have hb : handleRtp s buf = .blocked p := by
    rw [handleRtp_of_ok s buf p hp, if_neg (by rw [hfull]; decide)]
  have e1 : exec (Sys.start s) [.rtp buf] = { Sys.start s with sendq := [p] } := by
    simp [exec, step, Sys.start, hb]
  have e2 : exec (Sys.start s) [.rtp buf, .recvRtp]
      = { Sys.start s with
          chans := { rtpChan := s.rtpChan.tail ++ [p], rtcpChan := s.rtcpChan }
          received := s.rtpChan.take 1 } := by
    cases hc : s.rtpChan with
    | nil => rw [hc] at hfull; cases hfull
    | cons q qs => simp [exec, step, Sys.start, hb, hc]
  refine ⟨hb, e1, e2, ?_⟩
  rw [e2]
  show (s.rtpChan.tail ++ [p]).length = 10
  simp [hfull]

/-- Witness of C14: twelve sends with no consumer leave ten packets in the
channel and two tasks parked; on a full channel the task for `sampleBufCsrc` is
parked, and after one receive its packet is the tenth in the channel. -/
theorem exec_queue_bounded_witness :
    (exec (Sys.start New) (List.replicate 12 (Action.rtp sampleBuf))).chans.rtpChan.length = 10
      ∧ (exec (Sys.start New) (List.replicate 12 (Action.rtp sampleBuf))).sendq
          = [samplePacket, samplePacket]
      ∧ (exec (Sys.start New) (List.replicate 12 (Action.rtp sampleBuf))).received
          ++ (exec (Sys.start New) (List.replicate 12 (Action.rtp sampleBuf))).chans.rtpChan
          ++ (exec (Sys.start New) (List.replicate 12 (Action.rtp sampleBuf))).sendq
          = packetsOf (List.replicate 12 (Action.rtp sampleBuf))
      ∧ fullSession.rtpChan.length = 10
      ∧ handleRtp fullSession sampleBufCsrc = .blocked samplePacketCsrc
      ∧ exec (Sys.start fullSession) [.rtp sampleBufCsrc]
          = { Sys.start fullSession with sendq := [samplePacketCsrc] }
      ∧ exec (Sys.start fullSession) [.rtp sampleBufCsrc, .recvRtp]
          = { Sys.start fullSession with
              chans := { rtpChan := fullSession.rtpChan.tail ++ [samplePacketCsrc],
                         rtcpChan := fullSession.rtcpChan }
              received := fullSession.rtpChan.take 1 }
      ∧ (exec (Sys.start fullSession) [.rtp sampleBufCsrc, .recvRtp]).chans.rtpChan.length
          = 10 :=
  ⟨by decide, by decide,
    (exec_queue_bounded (List.replicate 12 (Action.rtp sampleBuf))).2.2.2.1, by decide,
    (exec_queue_bounded []).2.2.2.2 fullSession sampleBufCsrc samplePacketCsrc (by decide)
      (by decide)⟩

/-- C15: `handleRtcp` is a no-op for every buffer: it returns normally (it
neither panics nor blocks), leaves both channels exactly as they were, and
removing its task from any schedule changes nothing. -/
theorem handleRtcp_noop (s : Session) (buf : List Byte) :
    handleRtcp s buf = .done s
      ∧ (∀ e, handleRtcp s buf ≠ .panicked e)
      ∧ (∀ p, handleRtcp s buf ≠ .blocked p)
      ∧ (∀ s', handleRtcp s buf = .done s' →
          s'.rtcpChan = s.rtcpChan ∧ s'.rtpChan = s.rtpChan)
      ∧ ∀ rest, run s (Action.rtcp buf :: rest) = run s rest := by
  refine ⟨rfl, ?_, ?_, ?_, fun rest => rfl⟩
  · intro e h
    cases h
  · intro p h
    cases h
  · intro s' h
    cases h
    exact ⟨rfl, rfl⟩

/-- Witness of C15 on a full media channel. -/
theorem handleRtcp_noop_witness :
    handleRtcp fullSession sampleBuf = .done fullSession
      ∧ fullSession.rtcpChan = fullSession.rtcpChan
      ∧ fullSession.rtpChan = fullSession.rtpChan :=
  ⟨(handleRtcp_noop fullSession sampleBuf).1,
    (handleRtcp_noop fullSession sampleBuf).2.2.2.1 fullSession rfl⟩

/-- C16: when decoding succeeds with packet `p`, `handleRtp` performs exactly one
send, of `p`, on the media channel (the channel gains `p` at its end, or, when
it is full, the task is parked holding `p`); when decoding fails it publishes
nothing; the control channel is never changed. -/
theorem handleRtp_publishes (s : Session) (buf : List Byte) :
    (∀ p, handleRtpPacket buf = .ok p →
        handleRtp s buf
          = if s.rtpChan.length < chanCap
              then .done { rtpChan := s.rtpChan ++ [p], rtcpChan := s.rtcpChan }
              else .blocked p)
      ∧ (∀ e, handleRtpPacket buf = .error e → handleRtp s buf = .panicked e)
      ∧ (∀ s', handleRtp s buf = .done s' →
          s'.rtcpChan = s.rtcpChan
            ∧ ∃ p, handleRtpPacket buf = .ok p ∧ s'.rtpChan = s.rtpChan ++ [p]) := by
  refine ⟨?_, ?_, ?_⟩
  · intro p hp
    simp only [handleRtp, hp]
  · intro e he
    exact handleRtp_of_error s buf e he
  · intro s' hs
    cases hp : handleRtpPacket buf with
    | error e =>
      rw [handleRtp_of_error s buf e hp] at hs
      cases hs
    | ok p =>
      simp only [handleRtp, hp] at hs
      split_ifs at hs
      cases hs
      exact ⟨rfl, p, rfl, rfl⟩

/-- Witness of C16: `sampleBuf` on the empty channels, `badVersionBuf`, and
`sampleBuf` on a full media channel. -/
theorem handleRtp_publishes_witness :
    handleRtpPacket sampleBuf = .ok samplePacket
      ∧ handleRtp New sampleBuf = .done { rtpChan := [samplePacket], rtcpChan := [] }
      ∧ handleRtpPacket badVersionBuf = .error .unsupportedVersion
      ∧ handleRtp New badVersionBuf = .panicked .unsupportedVersion
      ∧ handleRtp fullSession sampleBuf = .blocked samplePacket :=
  ⟨by decide, (handleRtp_publishes New sampleBuf).1 samplePacket (by decide),
    by decide, (handleRtp_publishes New badVersionBuf).2.1 .unsupportedVersion (by decide),
    (handleRtp_publishes fullSession sampleBuf).1 samplePacket (by decide)⟩

/-- C17: on a buffer with `len(buf) ≥ 12`, `buf[0] & 0x03 = 2` and
`len(buf) ≥ 12 + 4*(buf[0] >> 4) + (4 + 4*L if the extension flag is set, else 0)`,
`L` being the big-endian 16-bit field at offset `12 + 4*(buf[0] >> 4) + 2`,
`handleRtp` does not panic (neither out of range nor on the version) and
produces a packet, which it sends. -/
theorem handleRtp_total (buf : List Byte) (_h12 : 12 ≤ buf.length)
    (hv : byteAt buf 0 &&& 0x03 = 2)
    (hl : 12 + 4 * (byteAt buf 0 >>> 4)
      + (if (byteAt buf 0 &&& hasRtpExt != 0) = true
          then 4 + 4 * be16 buf (12 + 4 * (byteAt buf 0 >>> 4) + 2) else 0) ≤ buf.length) :
    ∃ p, handleRtpPacket buf = .ok p
      ∧ (∀ s e, handleRtp s buf ≠ .panicked e)
      ∧ ∀ s, handleRtp s buf
          = if s.rtpChan.length < chanCap
              then .done { rtpChan := s.rtpChan ++ [p], rtcpChan := s.rtcpChan }
              else .blocked p := by
  have hex : ∃ p, handleRtpPacket buf = .ok p := by
    by_cases hx : (byteAt buf 0 &&& hasRtpExt != 0) = true
    · rw [if_pos hx] at hl
      exact handleRtpPacket_ok_ext buf (by omega) hv hx
    · rw [if_neg hx] at hl
      exact handleRtpPacket_ok_noExt buf (by omega) hv (by simpa using hx)
  obtain ⟨p, hp⟩ := hex
  have hs : ∀ s, handleRtp s buf
      = if s.rtpChan.length < chanCap
          then .done { rtpChan := s.rtpChan ++ [p], rtcpChan := s.rtcpChan }
          else .blocked p := by
    intro s
    simp only [handleRtp, hp]
  refine ⟨p, hp, ?_, hs⟩
  intro s e h
  rw [hs] at h
  split_ifs at h

/-- Witness of C17 on `sampleBuf` (extension present). -/
theorem handleRtp_total_witness :
    12 ≤ sampleBuf.length ∧ byteAt sampleBuf 0 &&& 0x03 = 2
      ∧ ∃ p, handleRtpPacket sampleBuf = .ok p
          ∧ (∀ s e, handleRtp s sampleBuf ≠ .panicked e)
          ∧ ∀ s, handleRtp s sampleBuf
              = if s.rtpChan.length < chanCap
                  then .done { rtpChan := s.rtpChan ++ [p], rtcpChan := s.rtcpChan }
                  else .blocked p :=
  ⟨by decide, by decide, handleRtp_total sampleBuf (by decide) (by decide) (by decide)⟩

/-- C18: decoding is injective on accepted input: two buffers that both decode
successfully, to equal packets, are equal byte for byte; indeed every accepted
buffer is recovered from its packet alone (by `encode`). -/
theorem handleRtpPacket_injective (bufA bufB : List Byte) (pA pB : RtpPacket)
    (hA : handleRtpPacket bufA = .ok pA) (hB : handleRtpPacket bufB = .ok pB)
    (hp : pA = pB) :
    bufA = bufB ∧ encode pA = bufA := by
  have eA := encode_of_ok bufA pA hA
  have eB := encode_of_ok bufB pB hB
  refine ⟨?_, eA⟩
  rw [← eA, ← eB, hp]

/-- Witness of C18 on `sampleBuf`. -/
theorem handleRtpPacket_injective_witness :
    handleRtpPacket sampleBuf = .ok samplePacket
      ∧ handleRtpPacket (encode samplePacket) = .ok samplePacket
      ∧ encode samplePacket = sampleBuf ∧ encode samplePacket = encode samplePacket :=
  ⟨by decide, by decide,
    handleRtpPacket_injective (encode samplePacket) sampleBuf samplePacket samplePacket
      (by decide) (by decide) rfl⟩

/-- C19: every successfully decoded packet has its fields within their wire
widths: `PayloadType < 128`, at most 15 CSRC entries, `SequenceNumber < 2^16`,
`ExtHeader < 2^16`, `Timestamp < 2^32`, `SyncSource < 2^32`, every CSRC entry
below `2^32`, at most `4 * 65535` bytes of `ExtData`; and when `Ext` is false,
`ExtHeader = 0` and `ExtData` is empty. -/
theorem handleRtpPacket_field_bounds (buf : List Byte) (p : RtpPacket)
    (h : handleRtpPacket buf = .ok p) :
    p.PayloadType < 128 ∧ p.CSRC.length ≤ 15 ∧ p.SequenceNumber < 2 ^ 16
      ∧ p.ExtHeader < 2 ^ 16 ∧ p.Timestamp < 2 ^ 32 ∧ p.SyncSource < 2 ^ 32
      ∧ (∀ v ∈ p.CSRC, v < 2 ^ 32) ∧ p.ExtData.length ≤ 4 * 65535
      ∧ (p.Ext = false → p.ExtHeader = 0 ∧ p.ExtData = []) := by
  obtain ⟨-, -, -, -, -, -, i5, i6, i7, i8, i9, i10, i11⟩ := handleRtpPacket_ok_inv buf p h
  obtain ⟨-, -, -, -, b5, -, -, -⟩ := byte_bits (buf.getD 0 0)
  obtain ⟨-, -, -, -, -, -, -, c8⟩ := byte_bits (buf.getD 1 0)
  simp only [← byteAt_eq] at b5 c8
  have hL := be16_lt buf (12 + 4 * (byteAt buf 0 >>> 4) + 2)
  refine ⟨by rw [i5]; exact c8, by rw [i9]; simpa using b5, by rw [i6]; exact be16_lt buf 2,
    ?_, by rw [i7]; exact be32_lt buf 4, by rw [i8]; exact be32_lt buf 8, ?_, ?_, ?_⟩
  · cases hx : p.Ext
    · rw [(i10 hx).1]; decide
    · rw [(i11 hx).2.1]; exact be16_lt buf _
  · intro v hv
    rw [i9] at hv
    obtain ⟨j, -, rfl⟩ := List.mem_map.1 hv
    exact be32_lt buf _
  · cases hx : p.Ext
    · rw [(i10 hx).2.1]; simp
    · rw [(i11 hx).2.2.1, List.length_take]
      omega
  · intro hx
    exact ⟨(i10 hx).1, (i10 hx).2.1⟩

/-- Witness of C19 on `sampleBuf`. -/
theorem handleRtpPacket_field_bounds_witness :
    handleRtpPacket sampleBuf = .ok samplePacket
      ∧ samplePacket.PayloadType < 128 ∧ samplePacket.CSRC.length ≤ 15
      ∧ samplePacket.SequenceNumber < 2 ^ 16 ∧ samplePacket.ExtHeader < 2 ^ 16
      ∧ samplePacket.Timestamp < 2 ^ 32 ∧ samplePacket.SyncSource < 2 ^ 32
      ∧ (∀ v ∈ samplePacket.CSRC, v < 2 ^ 32) ∧ samplePacket.ExtData.length ≤ 4 * 65535
      ∧ (samplePacket.Ext = false → samplePacket.ExtHeader = 0 ∧ samplePacket.ExtData = []) :=
  ⟨by decide, handleRtpPacket_field_bounds sampleBuf samplePacket (by decide)⟩

end Rtp
